import Mathlib

/-!
# Verification of the dvmeta crawl-and-merge pipeline

A shallow embedding, in Lean 4, of the core data model and operations of the
`dataverse-metadata-crawler` repository (`src/dvmeta`), together with theorems
settling the specification's claims about them.

Conventions of the embedding:
* Python dictionaries are modelled as association lists (`List (κ × ν)`) in
  insertion order; `dict.pop(k)` is `List.eraseP` on the key, membership tests
  are `List.any`/`List.lookup`.
* JSON values (`response.json()`) are modelled by the inductive type `JValue`;
  Python truthiness of a JSON value is `JValue.truthy` (empty dict/list/string,
  zero and `null` are falsy).
* In-place mutation of an argument dictionary is made explicit by returning the
  final state of that dictionary as an extra component of the result.
* String keys of the form `str(n)` for an integer `n` are modelled by the
  integer itself (the source always round-trips them with `int(...)`).
* Fallible code (a Python statement that can raise) is modelled with `Except`.
-/

namespace DvMeta

/-- A JSON value, as returned by `response.json()` in the source. -/
inductive JValue : Type where
  | null : JValue
  | bool : Bool → JValue
  | num : Int → JValue
  | str : String → JValue
  | arr : List JValue → JValue
  | obj : List (String × JValue) → JValue

/-- Python truthiness of a decoded JSON value (`if item.json():` in the source):
`None`, `False`, `0`, `""`, `[]` and `{}` are falsy, everything else truthy. -/
def JValue.truthy : JValue → Bool
  | .null => false
  | .bool b => b
  | .num n => n != 0
  | .str s => s != ""
  | .arr xs => !xs.isEmpty
  | .obj fs => !fs.isEmpty

/-- The nested `data` object of a dataset-metadata record, restricted to the
field the merge engine reads: `meta_value.get('data', {}).get('datasetId')`.
`none` models an absent `datasetId` key. -/
structure DataBlock where
  datasetId : Option Nat
deriving DecidableEq

/-- One entry of the PID dictionary built by `get_pids` (src/dvmeta/func.py):
`{CollectionAlias, CollectionID, datasetPersistentId, datasetId, path, pathIds}`. -/
structure DatasetRef where
  collectionAlias : String
  collectionId : Nat
  datasetPersistentId : String
  datasetId : Nat
  path : Option String
  pathIds : List Nat
deriving DecidableEq

/-- One dataset-metadata record (a value of `meta_dict`): the fetched `data`
plus the two fields the merge engine attaches.  `none` models the dictionary
key being absent (`'permission_info' not in meta_value`). -/
structure MetaRecord where
  data : DataBlock
  path_info : Option DatasetRef := none
  permission_info : Option JValue := none

/-! ## The join/merge engine (src/dvmeta/func.py, src/dvmeta/parsing.py) -/

/-- One pass of the inner loop shared by `add_path_info` and
`add_permission_info`: traverse `meta_dict` (in insertion order) and update the
first record whose `data.datasetId` equals `k` with `u`, returning `none` when
no record matches (the Python loop then falls through without popping). -/
def attachFirst (u : MetaRecord → MetaRecord) (k : Nat) : List MetaRecord → Option (List MetaRecord)
  | [] => none
  | r :: rest =>
    if r.data.datasetId == some k then some (u r :: rest)
    else (attachFirst u k rest).map (r :: ·)

/-- The outer loop shared by `add_path_info` and `add_permission_info`: iterate
over a snapshot (`list(d.items())`) of the entry dictionary; for each entry,
try to attach its value to the first matching metadata record and, on success,
pop the entry from the live dictionary (the second state component). -/
def attachFold {β : Type} (u : β → MetaRecord → MetaRecord) (snapshot : List (Nat × β))
    (st : List MetaRecord × List (Nat × β)) : List MetaRecord × List (Nat × β) :=
  snapshot.foldl
    (fun st kv =>
      match attachFirst (u kv.2) kv.1 st.1 with
      | some m => (m, st.2.eraseP (fun q => q.1 == kv.1))
      | none => st)
    st

/-- `add_path_info` (src/dvmeta/func.py lines 164–178).  The first component is
the metadata map with `path_info` attached; the second is `ds_dict_copy`, the
copy of the reference map from which every matched reference has been popped. -/
def add_path_info (meta_dict : List MetaRecord) (ds_dict : List (Nat × DatasetRef)) :
    List MetaRecord × List (Nat × DatasetRef) :=
  attachFold (fun v r => { r with path_info := some v }) ds_dict (meta_dict, ds_dict)

/-- The sentinel permission record `{'status': 'NA', 'data': []}`. -/
def naSentinel : JValue := .obj [("status", .str "NA"), ("data", .arr [])]

/-- `add_permission_info` (src/dvmeta/func.py lines 181–198).  The function
mutates `permission_dict` in place in the source; the embedding makes that
explicit by returning the final state of `permission_dict` as the second
component.  A `none` argument models passing `None` (the `isinstance` guard
then skips the first loop, and there is no caller dictionary to mutate). -/
def add_permission_info (meta_dict : List MetaRecord) (permission_dict : Option (List (Nat × JValue))) :
    List MetaRecord × List (Nat × JValue) :=
  let st : List MetaRecord × List (Nat × JValue) :=
    match permission_dict with
    | some pd => attachFold (fun v r => { r with permission_info := some v }) pd (meta_dict, pd)
    | none => (meta_dict, [])
  (st.1.map (fun r => if r.permission_info.isNone then { r with permission_info := some naSentinel } else r),
   st.2)

/-- Python's substring test `needle in hay` on the character lists of the two
strings. -/
def subChars (needle : List Char) : List Char → Bool
  | [] => needle.isEmpty
  | c :: t => needle.isPrefixOf (c :: t) || subChars needle t

/-- Python's `pid in k` for strings: `pid` occurs as a contiguous substring of `k`. -/
def strHasSub (hay needle : String) : Bool := subChars needle.data hay.data

/-- `Parsing.rm_dd_from_failed_uris` (src/dvmeta/parsing.py lines 189–207):
drop from `failed_uris` every entry whose key contains the persistent
identifier of some deaccessioned/draft reference. -/
def rm_dd_from_failed_uris (failed_uris : List (String × Nat)) (pid_dict_dd : List (Nat × DatasetRef)) :
    List (String × Nat) :=
  let dd_pids := pid_dict_dd.map (fun v => v.2.datasetPersistentId)
  let keys_to_remove := (failed_uris.map Prod.fst).filter (fun k => dd_pids.any (fun pid => strHasSub k pid))
  keys_to_remove.foldl (fun f k => f.eraseP (fun kv => kv.1 == k)) failed_uris

/-! ## The tree flattener (src/dvmeta/utils.py lines 111–150) -/

/-- One node of the raw collection tree: `{id, name, children?}`.  `children`
is `none` when the `'children'` key is absent and `some []` when it is present
but empty — `flatten_collection` distinguishes the two syntactically (the
`'children' in item` test) though they behave the same. -/
inductive CollectionNode : Type where
  | node (id : Nat) (name : String) (children : Option (List CollectionNode))

/-- The numeric `id` field of a node. -/
def CollectionNode.cid : CollectionNode → Nat
  | .node i _ _ => i

/-- The `name` field of a node. -/
def CollectionNode.cname : CollectionNode → String
  | .node _ n _ => n

/-- The raw `children` field of a node (`none` = key absent). -/
def CollectionNode.childrenOpt : CollectionNode → Option (List CollectionNode)
  | .node _ _ c => c

/-- The children of a node, with an absent `children` key read as the empty list. -/
def CollectionNode.kids (c : CollectionNode) : List CollectionNode := c.childrenOpt.getD []

/-- The root tree response `{'data': CollectionNode}` handed to `flatten_collection`. -/
structure TreeResponse where
  data : CollectionNode

/-- One entry of the flattened index: the node's own fields (minus `children`)
plus the computed `path` and `pathIds`. -/
structure FlatEntry where
  id : Nat
  name : String
  path : String
  pathIds : List Nat
deriving DecidableEq

/-- `f"{path_name}/{item['name']}" if path_name else item['name']` in the
source (`path_name` is falsy exactly when it is the empty string). -/
def joinPath (path_name nm : String) : String :=
  if path_name = "" then nm else path_name ++ "/" ++ nm

mutual

/-- The body of `loop_item` for a single `item` of `dictionary_data['children']`:
emit the item's flattened entry, then — when the item has a `children` key —
recurse into it with the just-computed path and path ids. -/
def flattenOne (c : CollectionNode) (path_name : String) (path_ids : List Nat) :
    List (Nat × FlatEntry) :=
  match c with
  | .node i nm ch =>
    (i, ⟨i, nm, joinPath path_name nm, path_ids ++ [i]⟩) ::
      (match ch with
       | some cs => flattenKids cs (joinPath path_name nm) (path_ids ++ [i])
       | none => [])

/-- `loop_item` of `flatten_collection`: the `for item in dictionary_data['children']`
loop, writing entries into `write_dict` in depth-first pre-order. -/
def flattenKids (cs : List CollectionNode) (path_name : String) (path_ids : List Nat) :
    List (Nat × FlatEntry) :=
  match cs with
  | [] => []
  | c :: rest => flattenOne c path_name path_ids ++ flattenKids rest path_name path_ids

end

/-- `flatten_collection` (src/dvmeta/utils.py lines 111–150, identical to
`Parsing._flatten_collection`): returns `{}` when the root has no `children`
key or an empty `children` list, else flattens every descendant. -/
def flatten_collection (readdict : TreeResponse) (path_name : String) (path_ids : List Nat) :
    List (Nat × FlatEntry) :=
  match readdict.data.childrenOpt with
  | none => []
  | some [] => []
  | some cs => flattenKids cs path_name path_ids

/-! ## The HTTP fetch layer (src/dvmeta/httpxclient.py, src/dvmeta/metadatacrawler.py)

The network is modelled by an oracle mapping each request to its outcome:
either a decoded `HResponse` or a transport-level error (`httpx.RequestError`).
The oracle is deterministic within a run — requesting the same URL twice gives
the same outcome.  `urljoin(base, path)` is modelled as string concatenation
(the source always joins a host-only base with an absolute path), and
`urlencode` of a single-entry query dict as `key ++ "=" ++ value`. -/

/-- An HTTP response as the source observes it: status code, the response's
URL, and the result of decoding its body as JSON (`none` models a body on
which `response.json()` raises, e.g. the plain-text synthetic error body). -/
structure HResponse where
  status : Nat
  url : String
  body : Option JValue

/-- The outcome of attempting one GET request: a response, or a raised
`httpx.RequestError`/`httpx.HTTPStatusError` (connection failure). -/
inductive NetOutcome : Type where
  | resp (r : HResponse)
  | exn

/-- `HttpxClient._async_semaphore_client` (src/dvmeta/httpxclient.py lines
66–88): return the response unchanged (both branches of the status test return
it), and convert a transport-level exception into a synthetic status-500
response whose body is the non-JSON text `'Error occurred during request'`. -/
def asyncSemaphoreClient (url : String) (o : NetOutcome) : HResponse :=
  match o with
  | .resp r => r
  | .exn => ⟨500, url, none⟩

/-- `HttpxClient.async_get`: one `_async_semaphore_client` task per URL, results
in submission order (`asyncio.gather` preserves order). -/
def async_get (url_list : List String) (net : String → NetOutcome) : List HResponse :=
  url_list.map (fun u => asyncSemaphoreClient u (net u))

/-- The configuration fields the embedded operations read. -/
structure Config where
  base_url : String
  api_key : Option String
  collection_alias : String
  version : String

/-- `MetaDataCrawler._parse_dataverse_contents_url`. -/
def contentsUrl (cfg : Config) (identifier : Nat) : String :=
  cfg.base_url ++ "/api/dataverses/" ++ toString identifier ++ "/contents"

/-- `MetaDataCrawler._parse_dataset_content_url`. -/
def datasetContentUrl (cfg : Config) (identifier : String) : String :=
  cfg.base_url ++ "/api/datasets/:persistentId/versions/:" ++ cfg.version
    ++ "?persistentId=" ++ identifier

/-- `MetaDataCrawler._parse_permission_url`. -/
def permissionUrl (cfg : Config) (identifier : Nat) : String :=
  cfg.base_url ++ "/api/datasets/" ++ toString identifier ++ "/assignments"

/-- `MetaDataCrawler._parse_tree_url` (when a parent alias is supplied the
query uses `config['COLLECTION_ALIAS']`, not the argument). -/
def treeUrl (cfg : Config) (parent_alias : Option String) : String :=
  match parent_alias with
  | some _ => cfg.base_url ++ "/api/info/metrics/tree?parentAlias=" ++ cfg.collection_alias
  | none => cfg.base_url ++ "/api/info/metrics/tree"

/-- The per-item failure record of `get_dataverse_contents`:
`{'url': item.url, 'status_code': item.status_code}` (an `httpx.Response` is
always truthy, so the `if item else None` fallbacks never produce `None`). -/
structure ContentsFail where
  url : String
  status_code : Nat
deriving DecidableEq

/-- The classification loop of `MetaDataCrawler.get_dataverse_contents`
(src/dvmeta/metadatacrawler.py lines 129–137): success requires status 200 and
a truthy JSON body; everything else is recorded as a failure.  `Except.error`
models `item.json()` raising on an undecodable 200 body. -/
def classifyContents : List (Nat × HResponse) →
    Except String (List (Nat × JValue) × List (Nat × ContentsFail))
  | [] => .ok ([], [])
  | (identifier, item) :: rest =>
    if item.status = 200 then
      match item.body with
      | none => .error "JSONDecodeError"
      | some b =>
        if b.truthy then
          (classifyContents rest).map (fun p => ((identifier, b) :: p.1, p.2))
        else
          (classifyContents rest).map (fun p => (p.1, (identifier, ⟨item.url, item.status⟩) :: p.2))
    else
      (classifyContents rest).map (fun p => (p.1, (identifier, ⟨item.url, item.status⟩) :: p.2))

/-- `MetaDataCrawler.get_dataverse_contents` (lines 111–138): fan out one
contents request per collection id and classify the zipped results. -/
def get_dataverse_contents (cfg : Config) (id_list : List Nat) (net : String → NetOutcome) :
    Except String (List (Nat × JValue) × List (Nat × ContentsFail)) :=
  let url_list := id_list.map (contentsUrl cfg)
  let response := async_get url_list net
  classifyContents (id_list.zip response)

/-- `item.json().get('data').get('datasetPersistentId')` — the key under which
`get_datasets_meta` stores a successful record.  Returns `none` when the chain
raises (`b` or `b['data']` is not a JSON object, or `'data'` is absent so the
first `.get` yields `None`); a missing `datasetPersistentId` field yields the
Python value `None` (`JValue.null`), which is a legal dict key. -/
def pidOf (b : JValue) : Option JValue :=
  match b with
  | .obj fs =>
    match fs.lookup "data" with
    | some (.obj ds) => some ((ds.lookup "datasetPersistentId").getD .null)
    | _ => none
  | _ => none

/-- The classification loop of `MetaDataCrawler.get_datasets_meta`
(src/dvmeta/metadatacrawler.py lines 158–166).  Note the branch structure of
the source: a 200 response with a falsy JSON body fails the first test, fails
the `status_code != 200` test, is not a `list`, and is therefore recorded in
neither dictionary. -/
def classifyMeta : List HResponse →
    Except String (List (JValue × JValue) × List (String × Nat))
  | [] => .ok ([], [])
  | item :: rest =>
    if item.status = 200 then
      match item.body with
      | none => .error "JSONDecodeError"
      | some b =>
        if b.truthy then
          match pidOf b with
          | none => .error "AttributeError"
          | some k => (classifyMeta rest).map (fun p => ((k, b) :: p.1, p.2))
        else
          (classifyMeta rest).map (fun p => p)
    else
      (classifyMeta rest).map (fun p => (p.1, (item.url, item.status) :: p.2))

/-- `MetaDataCrawler.get_datasets_meta` (lines 140–167). -/
def get_datasets_meta (cfg : Config) (id_list : List String) (net : String → NetOutcome) :
    Except String (List (JValue × JValue) × List (String × Nat)) :=
  let url_list := id_list.map (datasetContentUrl cfg)
  let response := async_get url_list net
  classifyMeta response

/-- Insertion into a Python dict modelled as an association list: overwrite in
place when the key exists, else append. -/
def dictInsert (d : List (String × Nat)) (k : String) (v : Nat) : List (String × Nat) :=
  if d.any (fun kv => kv.1 == k) then d.map (fun kv => if kv.1 == k then (k, v) else kv)
  else d ++ [(k, v)]

/-- The classification loop of `MetaDataCrawler.get_datasets_permissions`
(src/dvmeta/metadatacrawler.py lines 187–194): each response is keyed back to
its identifier by looking its URL up in `id_url_dict` (`dict.get`, hence
`Option Nat`), succeeds when status 200 with truthy JSON body, and is otherwise
recorded as a failure keyed by URL. -/
def classifyPerms (id_url_dict : List (String × Nat)) : List HResponse →
    Except String (List (Option Nat × JValue) × List (String × Nat))
  | [] => .ok ([], [])
  | resp :: rest =>
    if resp.status = 200 then
      match resp.body with
      | none => .error "JSONDecodeError"
      | some b =>
        if b.truthy then
          (classifyPerms id_url_dict rest).map (fun p => ((id_url_dict.lookup resp.url, b) :: p.1, p.2))
        else
          (classifyPerms id_url_dict rest).map (fun p => (p.1, (resp.url, resp.status) :: p.2))
    else
      (classifyPerms id_url_dict rest).map (fun p => (p.1, (resp.url, resp.status) :: p.2))

/-- `MetaDataCrawler.get_datasets_permissions` (lines 169–196): build
`id_url_dict = {url(id): id}`, request its keys, classify the responses. -/
def get_datasets_permissions (cfg : Config) (id_list : List Nat) (net : String → NetOutcome) :
    Except String (List (Option Nat × JValue) × List (String × Nat)) :=
  let id_url_dict := id_list.foldl (fun d i => dictInsert d (permissionUrl cfg i) i) []
  let responses := async_get (id_url_dict.map Prod.fst) net
  classifyPerms id_url_dict responses

/-- The response `get_dataverse_contents` observes for collection id `i` (the
oracle is deterministic, so every occurrence of `i` sees this response). -/
def contentsRespFor (cfg : Config) (net : String → NetOutcome) (i : Nat) : HResponse :=
  asyncSemaphoreClient (contentsUrl cfg i) (net (contentsUrl cfg i))

/-- The response `get_datasets_meta` observes for persistent id `pid`. -/
def metaRespFor (cfg : Config) (net : String → NetOutcome) (pid : String) : HResponse :=
  asyncSemaphoreClient (datasetContentUrl cfg pid) (net (datasetContentUrl cfg pid))

/-- The response `get_datasets_permissions` observes for dataset id `i`. -/
def permRespFor (cfg : Config) (net : String → NetOutcome) (i : Nat) : HResponse :=
  asyncSemaphoreClient (permissionUrl cfg i) (net (permissionUrl cfg i))

/-- `HttpxClient.sync_get` (src/dvmeta/httpxclient.py lines 124–143): a 200
response is returned, any other status becomes `None`, and a transport-level
exception becomes a synthetic status-500 response with a non-JSON body. -/
def sync_get (url : String) (o : NetOutcome) : Option HResponse :=
  match o with
  | .resp r => if r.status = 200 then some r else none
  | .exn => some ⟨500, url, none⟩

/-- `MetaDataCrawler.get_collections_tree` (src/dvmeta/metadatacrawler.py lines
99–109): `sync_get` the tree URL and map everything that is not a truthy
200 response to `None`. -/
def get_collections_tree (cfg : Config) (parent_alias : Option String)
    (net : String → NetOutcome) : Option HResponse :=
  let response := sync_get (treeUrl cfg parent_alias) (net (treeUrl cfg parent_alias))
  match response with
  | some r => if r.status = 200 then some r else none
  | none => none

/-! ## Connection checks (src/dvmeta/func.py, src/dvmeta/cli_validation.py)

For the connection probes the request headers matter, so their oracle takes a
second argument: whether the `X-Dataverse-key` header is attached. -/

/-- `func.check_connection` (src/dvmeta/func.py lines 55–83): a single probe —
the authenticated `mydata` endpoint when an API key is configured, the public
`version` endpoint otherwise.  There is no fallback from one to the other, and
the result is one boolean. -/
def check_connection (cfg : Config) (net : String → Bool → NetOutcome) : Bool :=
  let withKey := cfg.api_key.isSome
  let url :=
    if withKey then
      cfg.base_url ++ "/api/mydata/retrieve?role_ids=8&dvobject_types=Dataverse&published_states=Published&per_page=1"
    else cfg.base_url ++ "/api/info/version"
  match sync_get url (net url withKey) with
  | some r => r.status == 200
  | none => false

/-- `HttpxClient.authenticate_api_key` (src/dvmeta/httpxclient.py lines
90–106): GET the public `version` endpoint with the `X-Dataverse-key` header;
a transport error yields `False`. -/
def authenticate_api_key (cfg : Config) (net : String → Bool → NetOutcome) : Bool :=
  match net (cfg.base_url ++ "/api/info/version") true with
  | .resp r => r.status == 200
  | .exn => false

/-- `HttpxClient.authenticate_dv_connection` (lines 108–122): GET the public
`version` endpoint with the client's default headers (which carry the key
exactly when one is configured); a transport error yields `False`. -/
def authenticate_dv_connection (cfg : Config) (net : String → Bool → NetOutcome) : Bool :=
  match net (cfg.base_url ++ "/api/info/version") cfg.api_key.isSome with
  | .resp r => r.status == 200
  | .exn => false

/-- `cli_validation.validate_connection` (src/dvmeta/cli_validation.py lines
85–119): when a key is configured, probe with it first and return `True` on
success; otherwise (or on auth failure) probe the public endpoint, raising
`BadParameter` (modelled as `Except.error`) when even that fails, and
returning `False` — connected, but not authenticated. -/
def validate_connection (cfg : Config) (net : String → Bool → NetOutcome) :
    Except String Bool :=
  if cfg.api_key.isSome && authenticate_api_key cfg net then .ok true
  else if authenticate_dv_connection cfg net then .ok false
  else .error "Failed to connect to the dataverse repository"

/-- A call of `flatten_collection` that lets both optional arguments default,
made explicit about the shared mutable default: `cell` is the contents of the
`path_ids=[]` default-argument object when the call starts, and the second
component is its contents when the call returns.  The source only ever computes
`path_ids + [item['id']]` — list concatenation, which allocates a fresh list —
and never mutates `path_ids` in place, so the cell comes back unchanged. -/
def flattenCall (cell : List Nat) (t : TreeResponse) :
    List (Nat × FlatEntry) × List Nat :=
  (flatten_collection t "" cell, cell)

/-- `Desc a b`: `b` is a strict descendant of `a` — reachable from `a` through
one or more `children` edges ("`a` is an ancestor of `b`"). -/
inductive Desc : CollectionNode → CollectionNode → Prop where
  | child {a b : CollectionNode} : b ∈ a.kids → Desc a b
  | step {a b c : CollectionNode} : b ∈ a.kids → Desc b c → Desc a c

/-- The flattened entry the flattener writes for node `c` when visited with
parent context `(pn, pids)`. -/
def entryAt (c : CollectionNode) (pn : String) (pids : List Nat) : FlatEntry :=
  ⟨c.cid, c.cname, joinPath pn c.cname, pids ++ [c.cid]⟩

/-! ## Concrete instances used as witnesses and counterexamples -/

/-- Leaf collection `c` (id 3). -/
def cnC : CollectionNode := .node 3 "c" none

/-- Collection `b` (id 2) with single child `cnC`. -/
def cnB : CollectionNode := .node 2 "b" (some [cnC])

/-- Collection `a` (id 1) with single child `cnB`. -/
def cnA : CollectionNode := .node 1 "a" (some [cnB])

/-- A three-level chain under the root: root → a → b → c. -/
def cTree : TreeResponse := ⟨.node 0 "root" (some [cnA])⟩

/-- Two fetched metadata records with dataset ids 42 and 43 and no attached info. -/
def metaW : List MetaRecord := [⟨⟨some 42⟩, none, none⟩, ⟨⟨some 43⟩, none, none⟩]

/-- A permission map with one entry matching `metaW` (42) and one unmatched (7). -/
def permW : List (Nat × JValue) := [(42, .str "p42"), (7, .str "p7")]

/-- A dataset reference with id 42 and persistent id `doi:10/ABC`. -/
def refW42 : DatasetRef := ⟨"alias", 1, "doi:10/ABC", 42, some "/a", [1]⟩

/-- A dataset reference with id 99 (matching no record of `metaW`). -/
def refW99 : DatasetRef := ⟨"alias", 1, "doi:10/XYZ", 99, some "/a", [1]⟩

/-- A reference map with one entry matching `metaW` (42) and one unmatched (99). -/
def dsW : List (Nat × DatasetRef) := [(42, refW42), (99, refW99)]

/-- Two failed metadata-fetch URLs: one whose URL embeds the deaccessioned
persistent id `doi:10/ABC`, one unrelated. -/
def failedW : List (String × Nat) :=
  [("https://h/api/datasets/:persistentId/versions/:latest?persistentId=doi:10/ABC", 404),
   ("https://h/api/datasets/:persistentId/versions/:latest?persistentId=doi:10/KEEP", 500)]

/-- A deaccessioned/draft map containing only the reference for `doi:10/ABC`. -/
def ddW : List (Nat × DatasetRef) := [(42, refW42)]

/-- A configuration with an API key, used by the concrete network scenarios. -/
def cfgW : Config := ⟨"https://dv.example", some "KEY", "alias", "latest"⟩

/-- A network where every request yields HTTP 200 with the empty JSON object
`{}` — decodable but falsy. -/
def netEmptyObjW : String → NetOutcome := fun u => .resp ⟨200, u, some (.obj [])⟩

/-- A network where every request yields HTTP 404 with an error body. -/
def net404W : String → NetOutcome := fun u => .resp ⟨404, u, some (.obj [("status", .str "ERROR")])⟩

/-- A network where every request yields HTTP 200 with an undecodable body. -/
def netBadBodyW : String → NetOutcome := fun u => .resp ⟨200, u, none⟩

/-- A network where every request raises a transport error. -/
def netExnW : String → NetOutcome := fun _ => .exn

/-- A well-formed dataset-metadata response body: truthy, with
`data.datasetPersistentId` present. -/
def metaBodyW : JValue :=
  .obj [("status", .str "OK"),
        ("data", .obj [("datasetPersistentId", .str "doi:10/B"), ("datasetId", .num 42)])]

/-- A network where every request yields HTTP 200 with the well-formed
dataset-metadata body `metaBodyW`. -/
def netGoodMetaW : String → NetOutcome := fun u => .resp ⟨200, u, some metaBodyW⟩

/-- A network (for the connection probes, which also see whether the key
header is attached) where the public `version` endpoint answers 200 and every
other URL — in particular the authenticated `mydata` probe — answers 401. -/
def netC6 : String → Bool → NetOutcome := fun u _ =>
  if u = "https://dv.example/api/info/version" then .resp ⟨200, u, some (.obj [("status", .str "OK")])⟩
  else .resp ⟨401, u, some (.obj [("status", .str "ERROR")])⟩

/-! ### Per-item classification functions

These auxiliary functions state, per response, where the classification loops
of the crawler put each item; the theorems below prove the loops equal to
`filterMap` of these functions. -/

/-- Where `get_dataverse_contents` puts one `(identifier, response)` pair in
the success map: `some` exactly for a 200 response with a truthy JSON body. -/
def contentsOkEntry (ir : Nat × HResponse) : Option (Nat × JValue) :=
  if ir.2.status = 200 then
    match ir.2.body with
    | some b => if b.truthy then some (ir.1, b) else none
    | none => none
  else none

/-- Where `get_dataverse_contents` puts one pair in the failure map. -/
def contentsFailEntry (ir : Nat × HResponse) : Option (Nat × ContentsFail) :=
  if ir.2.status = 200 then
    match ir.2.body with
    | some b => if b.truthy then none else some (ir.1, ⟨ir.2.url, ir.2.status⟩)
    | none => none
  else some (ir.1, ⟨ir.2.url, ir.2.status⟩)

/-- Where `get_datasets_meta` puts one response in the success map. -/
def metaOkEntry (r : HResponse) : Option (JValue × JValue) :=
  if r.status = 200 then
    match r.body with
    | some b =>
      if b.truthy then
        match pidOf b with
        | some k => some (k, b)
        | none => none
      else none
    | none => none
  else none

/-- Where `get_datasets_meta` puts one response in the failure map: only
non-200 responses are recorded — a 200 response with a falsy body goes
nowhere. -/
def metaFailEntry (r : HResponse) : Option (String × Nat) :=
  if r.status = 200 then none else some (r.url, r.status)

/-- Where `get_datasets_permissions` puts one response in the success map. -/
def permsOkEntry (d : List (String × Nat)) (r : HResponse) : Option (Option Nat × JValue) :=
  if r.status = 200 then
    match r.body with
    | some b => if b.truthy then some (d.lookup r.url, b) else none
    | none => none
  else none

/-- Where `get_datasets_permissions` puts one response in the failure map. -/
def permsFailEntry (r : HResponse) : Option (String × Nat) :=
  if r.status = 200 then
    match r.body with
    | some b => if b.truthy then none else some (r.url, r.status)
    | none => none
  else some (r.url, r.status)

/-! ## Association-list lemmas -/

theorem eraseP_key_eq_filter {α β : Type} [BEq α] [LawfulBEq α]
    (k : α) : ∀ (l : List (α × β)), (l.map Prod.fst).Nodup →
    l.eraseP (fun kv => kv.1 == k) = l.filter (fun kv => !(kv.1 == k))
  | [], _ => rfl
  | a :: t, h => by
    simp only [List.map_cons, List.nodup_cons] at h
    by_cases hak : (a.1 == k) = true
    · rw [show (a :: t).eraseP (fun kv => kv.1 == k) = t from List.eraseP_cons_of_pos hak,
        show (a :: t).filter (fun kv => !(kv.1 == k)) = t.filter (fun kv => !(kv.1 == k)) from
          List.filter_cons_of_neg (by simp [hak])]
      have hkeep : ∀ kv ∈ t, (!(kv.1 == k)) = true := by
        intro kv hkv
        have hne : kv.1 ≠ a.1 := fun he => h.1 (he ▸ List.mem_map_of_mem Prod.fst hkv)
        simp [eq_of_beq hak ▸ hne]
      exact ((List.filter_eq_self).2 hkeep).symm
    · rw [show (a :: t).eraseP (fun kv => kv.1 == k) = a :: t.eraseP (fun kv => kv.1 == k) from
          List.eraseP_cons_of_neg (by simpa using hak),
        show (a :: t).filter (fun kv => !(kv.1 == k)) = a :: t.filter (fun kv => !(kv.1 == k)) from
          List.filter_cons_of_pos (by simpa using hak)]
      exact congrArg (a :: ·) (eraseP_key_eq_filter k t h.2)

theorem foldl_erase_keys {α β : Type} [BEq α] [LawfulBEq α] :
    ∀ (ks : List α) (pend : List (α × β)), (pend.map Prod.fst).Nodup →
    ks.foldl (fun f k => f.eraseP (fun kv => kv.1 == k)) pend
      = pend.filter (fun kv => !(ks.any (fun k => kv.1 == k)))
  | [], pend, _ => by simp
  | k :: ks, pend, h => by
    have hstep : pend.eraseP (fun kv => kv.1 == k) = pend.filter (fun kv => !(kv.1 == k)) :=
      eraseP_key_eq_filter k pend h
    have hsub : ((pend.filter (fun kv => !(kv.1 == k))).map Prod.fst).Nodup :=
      h.sublist ((List.filter_sublist pend).map Prod.fst)
    calc (k :: ks).foldl (fun f k => f.eraseP (fun kv => kv.1 == k)) pend
        = ks.foldl (fun f k => f.eraseP (fun kv => kv.1 == k))
            (pend.filter (fun kv => !(kv.1 == k))) := by rw [List.foldl_cons, hstep]
      _ = (pend.filter (fun kv => !(kv.1 == k))).filter
            (fun kv => !(ks.any (fun k => kv.1 == k))) := foldl_erase_keys ks _ hsub
      _ = pend.filter (fun kv => !((k :: ks).any (fun k' => kv.1 == k'))) := by
          rw [List.filter_filter]
          refine List.filter_congr fun kv _ => ?_
          by_cases hk : kv.1 == k <;> simp [hk]

/-! ## Lemmas about `attachFirst` and `attachFold` -/

theorem attachFirst_isSome (u : MetaRecord → MetaRecord) (k : Nat) :
    ∀ (m : List MetaRecord),
    (attachFirst u k m).isSome = m.any (fun r => r.data.datasetId == some k)
  | [] => rfl
  | r :: rest => by
    by_cases hr : (r.data.datasetId == some k) = true
    · simp [attachFirst, hr]
    · have ih := attachFirst_isSome u k rest
      simp only [attachFirst, hr, Bool.false_eq_true, not_false_eq_true, if_false,
        List.any_cons, Bool.false_or, ← ih]
      cases attachFirst u k rest <;> rfl

theorem attachFirst_data_map {u : MetaRecord → MetaRecord} {k : Nat}
    (hu : ∀ r, (u r).data = r.data) :
    ∀ {m m' : List MetaRecord}, attachFirst u k m = some m' →
    m'.map (fun r => r.data) = m.map (fun r => r.data) := by
  intro m
  induction m with
  | nil => intro m' h; cases h
  | cons r rest ih =>
    intro m' h
    by_cases hr : (r.data.datasetId == some k) = true
    · simp only [attachFirst, hr, if_true, Option.some_inj] at h
      subst h
      simp [hu r]
    · simp only [attachFirst, hr, Bool.false_eq_true, not_false_eq_true, if_false,
        Option.map_eq_some'] at h
      obtain ⟨m₁, hm₁, rfl⟩ := h
      simp [ih hm₁]

theorem attachFirst_mem {u : MetaRecord → MetaRecord} {k : Nat} :
    ∀ {m m' : List MetaRecord}, attachFirst u k m = some m' →
    ∀ r' ∈ m', r' ∈ m ∨ ∃ r ∈ m, r.data.datasetId = some k ∧ r' = u r := by
  intro m
  induction m with
  | nil => intro m' h; cases h
  | cons r rest ih =>
    intro m' h r' hr'
    by_cases hr : (r.data.datasetId == some k) = true
    · simp only [attachFirst, hr, if_true, Option.some_inj] at h
      subst h
      rcases List.mem_cons.1 hr' with rfl | hh
      · exact Or.inr ⟨r, List.mem_cons_self r rest, eq_of_beq hr, rfl⟩
      · exact Or.inl (List.mem_cons_of_mem r hh)
    · simp only [attachFirst, hr, Bool.false_eq_true, not_false_eq_true, if_false,
        Option.map_eq_some'] at h
      obtain ⟨m₁, hm₁, rfl⟩ := h
      rcases List.mem_cons.1 hr' with rfl | hh
      · exact Or.inl (List.mem_cons_self _ _)
      · rcases ih hm₁ r' hh with h1 | ⟨r₀, hr₀, hid, he⟩
        · exact Or.inl (List.mem_cons_of_mem r h1)
        · exact Or.inr ⟨r₀, List.mem_cons_of_mem r hr₀, hid, he⟩

theorem attachFirst_preserves {u : MetaRecord → MetaRecord} {k : Nat} :
    ∀ {m m' : List MetaRecord}, attachFirst u k m = some m' →
    ∀ r ∈ m, r.data.datasetId ≠ some k → r ∈ m' := by
  intro m
  induction m with
  | nil => intro m' h; cases h
  | cons r₀ rest ih =>
    intro m' h r hr hne
    by_cases hr₀ : (r₀.data.datasetId == some k) = true
    · simp only [attachFirst, hr₀, if_true, Option.some_inj] at h
      subst h
      rcases List.mem_cons.1 hr with rfl | hh
      · exact absurd (eq_of_beq hr₀) hne
      · exact List.mem_cons_of_mem _ hh
    · simp only [attachFirst, hr₀, Bool.false_eq_true, not_false_eq_true, if_false,
        Option.map_eq_some'] at h
      obtain ⟨m₁, hm₁, rfl⟩ := h
      rcases List.mem_cons.1 hr with rfl | hh
      · exact List.mem_cons_self r m₁
      · exact List.mem_cons_of_mem _ (ih hm₁ r hh hne)

theorem attachFirst_attached {u : MetaRecord → MetaRecord} {k : Nat} :
    ∀ {m m' : List MetaRecord}, attachFirst u k m = some m' →
    ∃ r ∈ m, r.data.datasetId = some k ∧ u r ∈ m' := by
  intro m
  induction m with
  | nil => intro m' h; cases h
  | cons r₀ rest ih =>
    intro m' h
    by_cases hr₀ : (r₀.data.datasetId == some k) = true
    · simp only [attachFirst, hr₀, if_true, Option.some_inj] at h
      subst h
      exact ⟨r₀, List.mem_cons_self r₀ rest, eq_of_beq hr₀, List.mem_cons_self _ _⟩
    · simp only [attachFirst, hr₀, Bool.false_eq_true, not_false_eq_true, if_false,
        Option.map_eq_some'] at h
      obtain ⟨m₁, hm₁, rfl⟩ := h
      obtain ⟨r, hr, hid, hu⟩ := ih hm₁
      exact ⟨r, List.mem_cons_of_mem r₀ hr, hid, List.mem_cons_of_mem r₀ hu⟩

theorem attachFold_cons_none {β : Type} {u : β → MetaRecord → MetaRecord}
    {kv : Nat × β} {pd : List (Nat × β)} {st : List MetaRecord × List (Nat × β)}
    (h : attachFirst (u kv.2) kv.1 st.1 = none) :
    attachFold u (kv :: pd) st = attachFold u pd st := by
  show attachFold u pd
      (match attachFirst (u kv.2) kv.1 st.1 with
       | some m => (m, st.2.eraseP (fun q => q.1 == kv.1))
       | none => st) = attachFold u pd st
  rw [h]

theorem attachFold_cons_some {β : Type} {u : β → MetaRecord → MetaRecord}
    {kv : Nat × β} {pd : List (Nat × β)} {st : List MetaRecord × List (Nat × β)}
    {m : List MetaRecord}
    (h : attachFirst (u kv.2) kv.1 st.1 = some m) :
    attachFold u (kv :: pd) st = attachFold u pd (m, st.2.eraseP (fun q => q.1 == kv.1)) := by
  show attachFold u pd
      (match attachFirst (u kv.2) kv.1 st.1 with
       | some m => (m, st.2.eraseP (fun q => q.1 == kv.1))
       | none => st) = _
  rw [h]

theorem any_id_congr {m m₀ : List MetaRecord}
    (h : m.map (fun r => r.data) = m₀.map (fun r => r.data)) (q : Nat) :
    m.any (fun r => r.data.datasetId == some q) = m₀.any (fun r => r.data.datasetId == some q) := by
  have h1 : ∀ (l : List MetaRecord),
      l.any (fun r => r.data.datasetId == some q)
        = (l.map (fun r => r.data)).any (fun d => d.datasetId == some q) := by
    intro l; induction l with
    | nil => rfl
    | cons r t ih => simp [ih]
  rw [h1, h1, h]

theorem attachFold_fst_data {β : Type} {u : β → MetaRecord → MetaRecord}
    (hu : ∀ v r, (u v r).data = r.data) :
    ∀ (pd : List (Nat × β)) (st : List MetaRecord × List (Nat × β)),
    ((attachFold u pd st).1).map (fun r => r.data) = st.1.map (fun r => r.data) := by
  intro pd
  induction pd with
  | nil => intro st; rfl
  | cons kv pd ih =>
    intro st
    cases h : attachFirst (u kv.2) kv.1 st.1 with
    | none =>
      rw [attachFold_cons_none h]
      exact ih st
    | some m =>
      rw [attachFold_cons_some h, ih]
      exact attachFirst_data_map (hu kv.2) h

theorem attachFold_snd {β : Type} {u : β → MetaRecord → MetaRecord}
    (hu : ∀ v r, (u v r).data = r.data) :
    ∀ (pd : List (Nat × β)) (st : List MetaRecord × List (Nat × β)),
    (st.2.map Prod.fst).Nodup →
    (attachFold u pd st).2
      = st.2.filter (fun q =>
          !((st.1.any (fun r => r.data.datasetId == some q.1))
            && pd.any (fun kv => kv.1 == q.1))) := by
  intro pd
  induction pd with
  | nil =>
    intro st _
    exact ((List.filter_eq_self).2 (by intro q _; simp)).symm
  | cons kv pd ih =>
    intro st hnd
    have hiso := attachFirst_isSome (u kv.2) kv.1 st.1
    cases h : attachFirst (u kv.2) kv.1 st.1 with
    | none =>
      rw [attachFold_cons_none h]
      have hg : st.1.any (fun r => r.data.datasetId == some kv.1) = false := by
        rw [← hiso, h]; rfl
      rw [ih st hnd]
      refine List.filter_congr fun q _ => ?_
      by_cases hk : q.1 = kv.1
      · rw [hk]; simp [hg]
      · simp [List.any_cons, show (kv.1 == q.1) = false from beq_false_of_ne (Ne.symm hk)]
    | some m =>
      rw [attachFold_cons_some h]
      have hg : st.1.any (fun r => r.data.datasetId == some kv.1) = true := by
        rw [← hiso, h]; rfl
      have herase : st.2.eraseP (fun q => q.1 == kv.1)
          = st.2.filter (fun q => !(q.1 == kv.1)) := eraseP_key_eq_filter kv.1 st.2 hnd
      have hnd' : ((st.2.filter (fun q => !(q.1 == kv.1))).map Prod.fst).Nodup :=
        hnd.sublist ((List.filter_sublist st.2).map Prod.fst)
      have hdata := attachFirst_data_map (hu kv.2) h
      have hih := ih (m, st.2.filter (fun q => !(q.1 == kv.1))) hnd'
      rw [herase, hih]
      rw [List.filter_filter]
      refine List.filter_congr fun q _ => ?_
      by_cases hk : q.1 = kv.1
      · rw [hk]
        simp [any_id_congr hdata, hg]
      · have hkb : (q.1 == kv.1) = false := beq_false_of_ne hk
        have hkb' : (kv.1 == q.1) = false := beq_false_of_ne (Ne.symm hk)
        simp [any_id_congr hdata, hkb, hkb']

theorem attachFold_fst_inv {β : Type} {u : β → MetaRecord → MetaRecord}
    (pd₀ : List (Nat × β)) (Q : MetaRecord → Prop)
    (hQu : ∀ kv ∈ pd₀, ∀ r : MetaRecord, r.data.datasetId = some kv.1 → Q (u kv.2 r)) :
    ∀ (pd : List (Nat × β)) (st : List MetaRecord × List (Nat × β)),
    (∀ kv ∈ pd, kv ∈ pd₀) → (∀ r ∈ st.1, Q r) →
    ∀ r' ∈ (attachFold u pd st).1, Q r' := by
  intro pd
  induction pd with
  | nil => intro st _ hst r' hr'; exact hst r' hr'
  | cons kv pd ih =>
    intro st hsub hst r' hr'
    have hkv₀ : kv ∈ pd₀ := hsub kv (List.mem_cons_self _ _)
    have hsub' : ∀ kv' ∈ pd, kv' ∈ pd₀ := fun kv' h => hsub kv' (List.mem_cons_of_mem _ h)
    cases h : attachFirst (u kv.2) kv.1 st.1 with
    | none =>
      rw [attachFold_cons_none h] at hr'
      exact ih st hsub' hst r' hr'
    | some m =>
      rw [attachFold_cons_some h] at hr'
      refine ih _ hsub' ?_ r' hr'
      intro r₀ hr₀
      rcases attachFirst_mem h r₀ hr₀ with h1 | ⟨r₁, _, hid, rfl⟩
      · exact hst r₀ h1
      · exact hQu kv hkv₀ r₁ hid

theorem attachFold_keeps {β : Type} {u : β → MetaRecord → MetaRecord} :
    ∀ (pd : List (Nat × β)) (st : List MetaRecord × List (Nat × β)) (r : MetaRecord),
    r ∈ st.1 → (∀ kv ∈ pd, r.data.datasetId ≠ some kv.1) →
    r ∈ (attachFold u pd st).1 := by
  intro pd
  induction pd with
  | nil => intro st r hr _; exact hr
  | cons kv pd ih =>
    intro st r hr hne
    cases h : attachFirst (u kv.2) kv.1 st.1 with
    | none =>
      rw [attachFold_cons_none h]
      exact ih st r hr (fun kv' h' => hne kv' (List.mem_cons_of_mem _ h'))
    | some m =>
      rw [attachFold_cons_some h]
      refine ih _ r ?_ (fun kv' h' => hne kv' (List.mem_cons_of_mem _ h'))
      exact attachFirst_preserves h r hr (hne kv (List.mem_cons_self _ _))

theorem attachFold_attaches {β : Type} {u : β → MetaRecord → MetaRecord}
    (hu : ∀ v r, (u v r).data = r.data) :
    ∀ (pd : List (Nat × β)) (st : List MetaRecord × List (Nat × β)),
    (pd.map Prod.fst).Nodup →
    ∀ kv ∈ pd, st.1.any (fun r => r.data.datasetId == some kv.1) = true →
    ∃ r : MetaRecord, r.data.datasetId = some kv.1 ∧ u kv.2 r ∈ (attachFold u pd st).1 := by
  intro pd
  induction pd with
  | nil => intro st _ kv h; cases h
  | cons kv₀ pd ih =>
    intro st hnd kv hkv hany
    simp only [List.map_cons, List.nodup_cons] at hnd
    rcases List.mem_cons.1 hkv with rfl | hkv'
    · have hsome : (attachFirst (u kv.2) kv.1 st.1).isSome = true := by
        rw [attachFirst_isSome]; exact hany
      cases h : attachFirst (u kv.2) kv.1 st.1 with
      | none => rw [h] at hsome; cases hsome
      | some m =>
        rw [attachFold_cons_some h]
        obtain ⟨r, _, hid, hmem⟩ := attachFirst_attached h
        refine ⟨r, hid, ?_⟩
        refine attachFold_keeps pd _ (u kv.2 r) hmem ?_
        intro kv' hkv' heq
        rw [hu kv.2 r, hid] at heq
        exact hnd.1 (by
          have : kv.1 = kv'.1 := Option.some_inj.1 heq
          exact this ▸ List.mem_map_of_mem Prod.fst hkv')
    · cases h : attachFirst (u kv₀.2) kv₀.1 st.1 with
      | none =>
        rw [attachFold_cons_none h]
        exact ih st hnd.2 kv hkv' hany
      | some m =>
        rw [attachFold_cons_some h]
        refine ih _ hnd.2 kv hkv' ?_
        rw [any_id_congr (attachFirst_data_map (hu kv₀.2) h) kv.1]
        exact hany

/-! ## Claim C1: the permission sentinel invariant -/

/-- C1.  After `add_permission_info` runs over a metadata map (whose records,
as produced by the fetch stage, carry no `permission_info` yet) and any —
possibly absent — permission map, every record of the returned metadata map
has a `permission_info` field, and every record whose numeric dataset id has
no entry in the supplied permission map holds the sentinel
`{status: "NA", data: []}`. -/
theorem add_permission_info_sentinel (meta_dict : List MetaRecord)
    (permission_dict : Option (List (Nat × JValue)))
    (hclean : ∀ r ∈ meta_dict, r.permission_info = none) :
    ∀ r ∈ (add_permission_info meta_dict permission_dict).1,
      r.permission_info.isSome = true ∧
      ((∀ k, r.data.datasetId = some k → ∀ v, (k, v) ∉ permission_dict.getD []) →
        r.permission_info = some naSentinel) := by
  intro r hr
  have hfill : ∀ r₀ : MetaRecord,
      r = (if r₀.permission_info.isNone then { r₀ with permission_info := some naSentinel } else r₀) →
      r.permission_info.isSome = true ∧ r.data = r₀.data ∧
      (r₀.permission_info = none → r.permission_info = some naSentinel) ∧
      (∀ v, r₀.permission_info = some v → r.permission_info = some v) := by
    intro r₀ he
    cases hp : r₀.permission_info with
    | none => subst he; simp [hp]
    | some v => subst he; simp [hp]
  cases permission_dict with
  | none =>
    simp only [add_permission_info, List.mem_map] at hr
    obtain ⟨r₀, hr₀, he⟩ := hr
    obtain ⟨h1, _, h3, _⟩ := hfill r₀ he.symm
    exact ⟨h1, fun _ => h3 (hclean r₀ hr₀)⟩
  | some pd =>
    simp only [add_permission_info, List.mem_map] at hr
    obtain ⟨r₀, hr₀, he⟩ := hr
    obtain ⟨h1, hdata, h3, h4⟩ := hfill r₀ he.symm
    refine ⟨h1, fun hnone => ?_⟩
    have hQ : r₀.permission_info = none ∨ ∃ kv ∈ pd, r₀.data.datasetId = some kv.1 := by
      refine attachFold_fst_inv pd
        (fun r' => r'.permission_info = none ∨ ∃ kv ∈ pd, r'.data.datasetId = some kv.1)
        ?_ pd (meta_dict, pd) (fun kv h => h) ?_ r₀ hr₀
      · intro kv hkv r₁ hid
        exact Or.inr ⟨kv, hkv, hid⟩
      · intro r₁ h₁
        exact Or.inl (hclean r₁ h₁)
    rcases hQ with hn | ⟨kv, hkv, hid⟩
    · exact h3 hn
    · exfalso
      exact hnone kv.1 (hdata ▸ hid) kv.2 hkv

/-- Witness for C1 at a concrete input: the records of `metaW` carry no
`permission_info`, and after the merge with `permW` the unmatched record (43)
carries the sentinel while every record carries some `permission_info`. -/
theorem add_permission_info_sentinel_witness :
    (∀ r ∈ metaW, r.permission_info = none) ∧
    (∀ r ∈ (add_permission_info metaW (some permW)).1,
      r.permission_info.isSome = true ∧
      ((∀ k, r.data.datasetId = some k → ∀ v, (k, v) ∉ (some permW).getD []) →
        r.permission_info = some naSentinel)) :=
  ⟨by simp [metaW], add_permission_info_sentinel metaW (some permW) (by simp [metaW])⟩

/-! ## Claim C2: the path-attach join -/

/-- C2.  For a reference map with distinct keys, `add_path_info` returns as its
pending component exactly the references whose dataset id matches no metadata
record — the matched ones have been popped — and every matched reference has
been attached as `path_info` to a record with that dataset id. -/
theorem add_path_info_join (meta_dict : List MetaRecord) (ds_dict : List (Nat × DatasetRef))
    (hnd : (ds_dict.map Prod.fst).Nodup) :
    (add_path_info meta_dict ds_dict).2
      = ds_dict.filter (fun kv => !(meta_dict.any (fun r => r.data.datasetId == some kv.1))) ∧
    ∀ kv ∈ ds_dict, meta_dict.any (fun r => r.data.datasetId == some kv.1) = true →
      ∃ r ∈ (add_path_info meta_dict ds_dict).1,
        r.data.datasetId = some kv.1 ∧ r.path_info = some kv.2 := by
  have hu : ∀ (v : DatasetRef) (r : MetaRecord), ({ r with path_info := some v } : MetaRecord).data = r.data :=
    fun _ _ => rfl
  constructor
  · rw [show (add_path_info meta_dict ds_dict).2
        = (attachFold (fun v r => { r with path_info := some v }) ds_dict (meta_dict, ds_dict)).2 from rfl]
    rw [attachFold_snd hu ds_dict (meta_dict, ds_dict) hnd]
    refine List.filter_congr fun kv hkv => ?_
    have : ds_dict.any (fun kv' => kv'.1 == kv.1) = true :=
      List.any_eq_true.2 ⟨kv, hkv, beq_self_eq_true kv.1⟩
    rw [this, Bool.and_true]
  · intro kv hkv hany
    obtain ⟨r₀, hid, hmem⟩ :=
      attachFold_attaches hu ds_dict (meta_dict, ds_dict) hnd kv hkv hany
    exact ⟨{ r₀ with path_info := some kv.2 }, hmem, hid, rfl⟩

/-- Witness for C2 at a concrete input: `dsW` has distinct keys; its entry 42
matches a record of `metaW` while 99 matches none. -/
theorem add_path_info_join_witness :
    (dsW.map Prod.fst).Nodup ∧
    ((add_path_info metaW dsW).2
      = dsW.filter (fun kv => !(metaW.any (fun r => r.data.datasetId == some kv.1))) ∧
    ∀ kv ∈ dsW, metaW.any (fun r => r.data.datasetId == some kv.1) = true →
      ∃ r ∈ (add_path_info metaW dsW).1,
        r.data.datasetId = some kv.1 ∧ r.path_info = some kv.2) :=
  ⟨by decide, add_path_info_join metaW dsW (by decide)⟩

/-! ## Claim C9: `add_permission_info` pops the caller's permission map in place -/

/-- C9.  `add_permission_info` mutates the caller's `permission_dict` in place
(the embedding returns that dictionary's final state as the second component):
afterwards the caller's map holds exactly those permission entries whose
dataset id matches no metadata record — every matched entry has been popped.
(`add_path_info`, by contrast, pops from a copy: its input map is returned
untouched to the caller, which the pure embedding renders trivially.) -/
theorem add_permission_info_pops_in_place (meta_dict : List MetaRecord)
    (pd : List (Nat × JValue)) (hnd : (pd.map Prod.fst).Nodup) :
    (add_permission_info meta_dict (some pd)).2
      = pd.filter (fun kv => !(meta_dict.any (fun r => r.data.datasetId == some kv.1))) := by
  have hu : ∀ (v : JValue) (r : MetaRecord),
      ({ r with permission_info := some v } : MetaRecord).data = r.data := fun _ _ => rfl
  rw [show (add_permission_info meta_dict (some pd)).2
      = (attachFold (fun v r => { r with permission_info := some v }) pd (meta_dict, pd)).2 from rfl]
  rw [attachFold_snd hu pd (meta_dict, pd) hnd]
  refine List.filter_congr fun kv hkv => ?_
  have : pd.any (fun kv' => kv'.1 == kv.1) = true :=
    List.any_eq_true.2 ⟨kv, hkv, beq_self_eq_true kv.1⟩
  rw [this, Bool.and_true]

/-- Witness for C9 at a concrete input: after merging `permW` into `metaW` the
caller's permission map holds exactly the unmatched entry (7). -/
theorem add_permission_info_pops_in_place_witness :
    (permW.map Prod.fst).Nodup ∧
    (add_permission_info metaW (some permW)).2
      = permW.filter (fun kv => !(metaW.any (fun r => r.data.datasetId == some kv.1))) :=
  ⟨by decide, add_permission_info_pops_in_place metaW permW (by decide)⟩

/-! ## Claim C5: failure reconciliation -/

/-- C5.  `rm_dd_from_failed_uris` removes exactly those entries of the
failed-URI map whose key contains, as a substring, the persistent identifier
of some deaccessioned/draft reference; all other entries survive unchanged
(the result is the corresponding filter of the input, in order). -/
theorem rm_dd_from_failed_uris_filter (failed_uris : List (String × Nat))
    (pid_dict_dd : List (Nat × DatasetRef))
    (hnd : (failed_uris.map Prod.fst).Nodup) :
    rm_dd_from_failed_uris failed_uris pid_dict_dd
      = failed_uris.filter (fun kv =>
          !((pid_dict_dd.map (fun v => v.2.datasetPersistentId)).any
              (fun pid => strHasSub kv.1 pid))) := by
  unfold rm_dd_from_failed_uris
  rw [foldl_erase_keys _ failed_uris hnd]
  refine List.filter_congr fun kv hkv => ?_
  congr 1
  have hmem : kv.1 ∈ failed_uris.map Prod.fst := List.mem_map_of_mem Prod.fst hkv
  by_cases hp : ((pid_dict_dd.map (fun v => v.2.datasetPersistentId)).any
      (fun pid => strHasSub kv.1 pid)) = true
  · rw [hp]
    refine List.any_eq_true.2 ⟨kv.1, List.mem_filter.2 ⟨hmem, hp⟩, beq_self_eq_true kv.1⟩
  · rw [Bool.eq_false_iff.2 hp]
    refine (Bool.eq_false_iff.2 ?_)
    intro hc
    obtain ⟨k, hk, hbeq⟩ := List.any_eq_true.1 hc
    obtain ⟨_, hkp⟩ := List.mem_filter.1 hk
    exact hp ((eq_of_beq hbeq : kv.1 = k) ▸ hkp)

/-- Witness for C5 at a concrete input: of the two failed URLs in `failedW`,
exactly the one embedding `doi:10/ABC` (the persistent id in `ddW`) is removed. -/
theorem rm_dd_from_failed_uris_filter_witness :
    (failedW.map Prod.fst).Nodup ∧
    rm_dd_from_failed_uris failedW ddW
      = failedW.filter (fun kv =>
          !((ddW.map (fun v => v.2.datasetPersistentId)).any
              (fun pid => strHasSub kv.1 pid))) :=
  ⟨by decide, rm_dd_from_failed_uris_filter failedW ddW (by decide)⟩

/-! ## Claim C8: flattening edge cases and fresh defaults -/

/-- C8.  Flattening a tree whose root has no `children` key, or an empty
`children` list, yields the empty mapping; and because the flattener only ever
computes `path_ids + [id]` — never an in-place mutation of the shared default
list — the default-argument cell is unchanged by a call, so a second call with
defaults yields a result identical to the first. -/
theorem flatten_collection_empty_and_fresh :
    (∀ (i : Nat) (nm : String),
      flatten_collection ⟨.node i nm none⟩ "" [] = [] ∧
      flatten_collection ⟨.node i nm (some [])⟩ "" [] = []) ∧
    (∀ t : TreeResponse,
      (flattenCall [] t).2 = [] ∧
      (flattenCall (flattenCall [] t).2 t).1 = (flattenCall [] t).1) :=
  ⟨fun _ _ => ⟨rfl, rfl⟩, fun _ => ⟨rfl, rfl⟩⟩

/-! ## Flattener structure lemmas -/

theorem flattenOne_eq : ∀ (c : CollectionNode) (pn : String) (pids : List Nat),
    flattenOne c pn pids
      = (c.cid, entryAt c pn pids) ::
        (match c.childrenOpt with
         | some cs => flattenKids cs (joinPath pn c.cname) (pids ++ [c.cid])
         | none => [])
  | .node _ _ (some _), _, _ => rfl
  | .node _ _ none, _, _ => rfl

theorem self_mem_flattenOne (c : CollectionNode) (pn : String) (pids : List Nat) :
    (c.cid, entryAt c pn pids) ∈ flattenOne c pn pids := by
  rw [flattenOne_eq]
  exact List.mem_cons_self _ _

theorem mem_flattenKids_of_mem {cs : List CollectionNode} {b : CollectionNode}
    (hb : b ∈ cs) (pn : String) (pids : List Nat) :
    ∀ x ∈ flattenOne b pn pids, x ∈ flattenKids cs pn pids := by
  induction cs with
  | nil => cases hb
  | cons c rest ih =>
    intro x hx
    show x ∈ flattenOne c pn pids ++ flattenKids rest pn pids
    rcases List.mem_cons.1 hb with rfl | hb'
    · exact List.mem_append_left _ hx
    · exact List.mem_append_right _ (ih hb' x hx)

theorem mem_flattenOne_of_kid {a b : CollectionNode} (hb : b ∈ a.kids)
    (pn : String) (pids : List Nat) :
    ∀ x ∈ flattenOne b (joinPath pn a.cname) (pids ++ [a.cid]),
      x ∈ flattenOne a pn pids := by
  intro x hx
  rw [flattenOne_eq a]
  refine List.mem_cons_of_mem _ ?_
  cases a with
  | node i nm ch =>
    cases ch with
    | none => cases hb
    | some cs =>
      have hb' : b ∈ cs := hb
      exact mem_flattenKids_of_mem hb' _ _ x hx

theorem desc_context {r a : CollectionNode} (h : Desc r a) :
    ∀ (pn : String) (pids : List Nat), ∃ (pnA : String) (pidsA : List Nat),
      ∀ x ∈ flattenOne a pnA pidsA, x ∈ flattenOne r pn pids := by
  induction h with
  | @child r' a' hb =>
    intro pn pids
    exact ⟨joinPath pn r'.cname, pids ++ [r'.cid], mem_flattenOne_of_kid hb pn pids⟩
  | @step r' b' a' hb _ ih =>
    intro pn pids
    obtain ⟨pnA, pidsA, hincl⟩ := ih (joinPath pn r'.cname) (pids ++ [r'.cid])
    exact ⟨pnA, pidsA, fun x hx => mem_flattenOne_of_kid hb pn pids x (hincl x hx)⟩

theorem desc_entry {a b : CollectionNode} (h : Desc a b) :
    ∀ (pn : String) (pids : List Nat), ∃ (eb : FlatEntry) (ext : List Nat),
      (b.cid, eb) ∈ flattenOne a pn pids ∧ ext ≠ [] ∧
      eb.pathIds = (pids ++ [a.cid]) ++ ext := by
  induction h with
  | @child a' b' hb =>
    intro pn pids
    refine ⟨entryAt b' (joinPath pn a'.cname) (pids ++ [a'.cid]), [b'.cid], ?_, by simp, ?_⟩
    · exact mem_flattenOne_of_kid hb pn pids _ (self_mem_flattenOne b' _ _)
    · rfl
  | @step a' b' c' hb _ ih =>
    intro pn pids
    obtain ⟨ec, ext, hmem, hne, hids⟩ := ih (joinPath pn a'.cname) (pids ++ [a'.cid])
    refine ⟨ec, b'.cid :: ext, mem_flattenOne_of_kid hb pn pids _ hmem, by simp, ?_⟩
    rw [hids]
    simp

theorem mem_flatten_top {t : TreeResponse} {n : CollectionNode} (hn : n ∈ t.data.kids) :
    ∀ x ∈ flattenOne n "" [], x ∈ flatten_collection t "" [] := by
  intro x hx
  obtain ⟨d⟩ := t
  cases d with
  | node i nm ch =>
    cases ch with
    | none => cases hn
    | some cs =>
      cases cs with
      | nil => cases hn
      | cons c rest =>
        exact mem_flattenKids_of_mem hn "" [] x hx

theorem root_context {t : TreeResponse} {a : CollectionNode} (h : Desc t.data a) :
    ∃ (pnA : String) (pidsA : List Nat),
      ∀ x ∈ flattenOne a pnA pidsA, x ∈ flatten_collection t "" [] := by
  cases h with
  | child hb => exact ⟨"", [], fun x hx => mem_flatten_top hb x hx⟩
  | step hb hd =>
    obtain ⟨pnA, pidsA, hincl⟩ := desc_context hd "" []
    exact ⟨pnA, pidsA, fun x hx => mem_flatten_top hb x (hincl x hx)⟩

/-! ## Claim C7: ancestor path structure (corrected) -/

/-- Counterexample to C7 as stated.  In the chain root → a → b → c, node `a`
is an ancestor of node `c`, yet `c`'s flattened path is `"a/b/c"`, not
`path(a) + "/" + name(c) = "a/c"`: the path equation of the claim holds only
for direct parent/child pairs, not for arbitrary ancestor pairs. -/
theorem flatten_ancestor_path_cex :
    Desc cTree.data cnA ∧ Desc cnA cnC ∧
    (flatten_collection cTree "" []).lookup cnA.cid = some ⟨1, "a", "a", [1]⟩ ∧
    (flatten_collection cTree "" []).lookup cnC.cid = some ⟨3, "c", "a/b/c", [1, 2, 3]⟩ ∧
    ("a/b/c" : String) ≠ "a" ++ "/" ++ cnC.cname :=
  ⟨Desc.child (List.mem_cons_self _ _),
   Desc.step (List.mem_cons_self _ _) (Desc.child (List.mem_cons_self _ _)),
   rfl, rfl, by decide⟩

/-- C7 (amended).  For every node `A` in the tree and every descendant `B` of
`A`: the flattened entries satisfy that `B`'s `pathIds` strictly extends `A`'s
`pathIds` as a prefix; and when `B` is a direct child of `A` (and `A`'s path is
non-empty, as it always is for non-empty names), additionally
`path(B) = path(A) + "/" + name(B)`. -/
theorem flatten_ancestor_paths (t : TreeResponse) (A B : CollectionNode)
    (hA : Desc t.data A) (hAB : Desc A B) :
    (∃ eA eB : FlatEntry,
      (A.cid, eA) ∈ flatten_collection t "" [] ∧
      (B.cid, eB) ∈ flatten_collection t "" [] ∧
      eA.pathIds <+: eB.pathIds ∧ eA.pathIds.length < eB.pathIds.length) ∧
    (B ∈ A.kids → ∃ eA eB : FlatEntry,
      (A.cid, eA) ∈ flatten_collection t "" [] ∧
      (B.cid, eB) ∈ flatten_collection t "" [] ∧
      eA.pathIds <+: eB.pathIds ∧ eA.pathIds.length < eB.pathIds.length ∧
      (eA.path ≠ "" → eB.path = eA.path ++ "/" ++ B.cname)) := by
  obtain ⟨pnA, pidsA, hincl⟩ := root_context hA
  have heA : (A.cid, entryAt A pnA pidsA) ∈ flatten_collection t "" [] :=
    hincl _ (self_mem_flattenOne A pnA pidsA)
  constructor
  · obtain ⟨eB, ext, hmem, hne, hids⟩ := desc_entry hAB pnA pidsA
    refine ⟨entryAt A pnA pidsA, eB, heA, hincl _ hmem, ?_, ?_⟩
    · rw [hids]
      exact ⟨ext, rfl⟩
    · rw [hids]
      have hpos : 0 < ext.length := List.length_pos.2 hne
      simp only [entryAt, List.length_append, List.length_cons, List.length_nil]
      omega
  · intro hk
    refine ⟨entryAt A pnA pidsA,
      entryAt B (joinPath pnA A.cname) (pidsA ++ [A.cid]),
      heA,
      hincl _ (mem_flattenOne_of_kid hk pnA pidsA _ (self_mem_flattenOne B _ _)),
      ⟨[B.cid], rfl⟩, ?_, ?_⟩
    · simp [entryAt]
    · intro hne
      show joinPath (joinPath pnA A.cname) B.cname = joinPath pnA A.cname ++ "/" ++ B.cname
      unfold joinPath
      rw [if_neg (by exact hne)]

/-- Witness for the amended C7 at the concrete chain: `a` is in the tree,
`b` is its direct child, and the conclusion holds there. -/
theorem flatten_ancestor_paths_witness :
    Desc cTree.data cnA ∧ Desc cnA cnB ∧
    ((∃ eA eB : FlatEntry,
      (cnA.cid, eA) ∈ flatten_collection cTree "" [] ∧
      (cnB.cid, eB) ∈ flatten_collection cTree "" [] ∧
      eA.pathIds <+: eB.pathIds ∧ eA.pathIds.length < eB.pathIds.length) ∧
    (cnB ∈ cnA.kids → ∃ eA eB : FlatEntry,
      (cnA.cid, eA) ∈ flatten_collection cTree "" [] ∧
      (cnB.cid, eB) ∈ flatten_collection cTree "" [] ∧
      eA.pathIds <+: eB.pathIds ∧ eA.pathIds.length < eB.pathIds.length ∧
      (eA.path ≠ "" → eB.path = eA.path ++ "/" ++ cnB.cname))) :=
  ⟨Desc.child (List.mem_cons_self _ _),
   Desc.child (List.mem_cons_self _ _),
   flatten_ancestor_paths cTree cnA cnB
     (Desc.child (List.mem_cons_self _ _))
     (Desc.child (List.mem_cons_self _ _))⟩

/-! ## Characterization of the batch classification loops -/

theorem classifyContents_cases : ∀ (l : List (Nat × HResponse)),
    (∃ e, classifyContents l = .error e ∧ ∃ ir ∈ l, ir.2.status = 200 ∧ ir.2.body = none)
    ∨ (classifyContents l = .ok (l.filterMap contentsOkEntry, l.filterMap contentsFailEntry)
        ∧ ∀ ir ∈ l, ir.2.status = 200 → ir.2.body ≠ none) := by
  intro l
  induction l with
  | nil => exact Or.inr ⟨rfl, by intro ir h; cases h⟩
  | cons ir rest ih =>
    obtain ⟨i, r⟩ := ir
    by_cases hs : r.status = 200
    · cases hb : r.body with
      | none =>
        refine Or.inl ⟨"JSONDecodeError", ?_, (i, r), List.mem_cons_self _ _, hs, hb⟩
        simp only [classifyContents, hs, if_true]
        rw [hb]
      | some b =>
        rcases ih with ⟨e, herr, ir', hir', h2⟩ | ⟨hok, hbad⟩
        · refine Or.inl ⟨e, ?_, ir', List.mem_cons_of_mem _ hir', h2⟩
          simp only [classifyContents, hs, if_true]
          rw [hb]
          cases ht : b.truthy <;> simp [ht, herr, Except.map, hs]
        · refine Or.inr ⟨?_, ?_⟩
          · simp only [classifyContents, hs, if_true]
            rw [hb]
            cases ht : b.truthy <;>
              simp [ht, hok, Except.map, List.filterMap_cons, contentsOkEntry,
                contentsFailEntry, hs, hb]
          · intro ir' hmem h200'
            rcases List.mem_cons.1 hmem with rfl | htail
            · simp [hb]
            · exact hbad ir' htail h200'
    · rcases ih with ⟨e, herr, ir', hir', h2⟩ | ⟨hok, hbad⟩
      · refine Or.inl ⟨e, ?_, ir', List.mem_cons_of_mem _ hir', h2⟩
        simp only [classifyContents, hs, if_false]
        simp [herr, Except.map, hs]
      · refine Or.inr ⟨?_, ?_⟩
        · simp only [classifyContents, hs, if_false]
          simp [hok, Except.map, List.filterMap_cons, contentsOkEntry, contentsFailEntry, hs]
        · intro ir' hmem h200'
          rcases List.mem_cons.1 hmem with rfl | htail
          · exact absurd h200' hs
          · exact hbad ir' htail h200'

theorem classifyMeta_cases : ∀ (l : List HResponse),
    (∃ e, classifyMeta l = .error e ∧ ∃ r ∈ l, r.status = 200)
    ∨ (classifyMeta l = .ok (l.filterMap metaOkEntry, l.filterMap metaFailEntry)
        ∧ ∀ r ∈ l, r.status = 200 → r.body ≠ none) := by
  intro l
  induction l with
  | nil => exact Or.inr ⟨rfl, by intro r h; cases h⟩
  | cons r rest ih =>
    by_cases hs : r.status = 200
    · cases hb : r.body with
      | none =>
        refine Or.inl ⟨"JSONDecodeError", ?_, r, List.mem_cons_self _ _, hs⟩
        simp only [classifyMeta, hs, if_true]
        rw [hb]
      | some b =>
        cases ht : b.truthy
        · rcases ih with ⟨e, herr, r', hr', h2⟩ | ⟨hok, hbad⟩
          · refine Or.inl ⟨e, ?_, r', List.mem_cons_of_mem _ hr', h2⟩
            simp only [classifyMeta, hs, if_true]
            rw [hb]
            simp [ht, herr, Except.map, hs]
          · refine Or.inr ⟨?_, ?_⟩
            · simp only [classifyMeta, hs, if_true]
              rw [hb]
              simp [ht, hok, Except.map, List.filterMap_cons, metaOkEntry, metaFailEntry, hs, hb]
            · intro r' hmem h200'
              rcases List.mem_cons.1 hmem with rfl | htail
              · simp [hb]
              · exact hbad r' htail h200'
        · cases hp : pidOf b with
          | none =>
            refine Or.inl ⟨"AttributeError", ?_, r, List.mem_cons_self _ _, hs⟩
            simp only [classifyMeta, hs, if_true]
            rw [hb]
            simp [ht, hp]
          | some k =>
            rcases ih with ⟨e, herr, r', hr', h2⟩ | ⟨hok, hbad⟩
            · refine Or.inl ⟨e, ?_, r', List.mem_cons_of_mem _ hr', h2⟩
              simp only [classifyMeta, hs, if_true]
              rw [hb]
              simp [ht, hp, herr, Except.map, hs]
            · refine Or.inr ⟨?_, ?_⟩
              · simp only [classifyMeta, hs, if_true]
                rw [hb]
                simp [ht, hp, hok, Except.map, List.filterMap_cons, metaOkEntry, metaFailEntry,
                  hs, hb]
              · intro r' hmem h200'
                rcases List.mem_cons.1 hmem with rfl | htail
                · simp [hb]
                · exact hbad r' htail h200'
    · rcases ih with ⟨e, herr, r', hr', h2⟩ | ⟨hok, hbad⟩
      · refine Or.inl ⟨e, ?_, r', List.mem_cons_of_mem _ hr', h2⟩
        simp only [classifyMeta, hs, if_false]
        simp [herr, Except.map, hs]
      · refine Or.inr ⟨?_, ?_⟩
        · simp only [classifyMeta, hs, if_false]
          simp [hok, Except.map, List.filterMap_cons, metaOkEntry, metaFailEntry, hs]
        · intro r' hmem h200'
          rcases List.mem_cons.1 hmem with rfl | htail
          · exact absurd h200' hs
          · exact hbad r' htail h200'

theorem classifyPerms_cases (d : List (String × Nat)) : ∀ (l : List HResponse),
    (∃ e, classifyPerms d l = .error e ∧ ∃ r ∈ l, r.status = 200)
    ∨ (classifyPerms d l
        = .ok (l.filterMap (permsOkEntry d), l.filterMap permsFailEntry)
        ∧ ∀ r ∈ l, r.status = 200 → r.body ≠ none) := by
  intro l
  induction l with
  | nil => exact Or.inr ⟨rfl, by intro r h; cases h⟩
  | cons r rest ih =>
    by_cases hs : r.status = 200
    · cases hb : r.body with
      | none =>
        refine Or.inl ⟨"JSONDecodeError", ?_, r, List.mem_cons_self _ _, hs⟩
        simp only [classifyPerms, hs, if_true]
        rw [hb]
      | some b =>
        rcases ih with ⟨e, herr, r', hr', h2⟩ | ⟨hok, hbad⟩
        · refine Or.inl ⟨e, ?_, r', List.mem_cons_of_mem _ hr', h2⟩
          simp only [classifyPerms, hs, if_true]
          rw [hb]
          cases ht : b.truthy <;> simp [ht, herr, Except.map, hs]
        · refine Or.inr ⟨?_, ?_⟩
          · simp only [classifyPerms, hs, if_true]
            rw [hb]
            cases ht : b.truthy <;>
              simp [ht, hok, Except.map, List.filterMap_cons, permsOkEntry, permsFailEntry, hs, hb]
          · intro r' hmem h200'
            rcases List.mem_cons.1 hmem with rfl | htail
            · simp [hb]
            · exact hbad r' htail h200'
    · rcases ih with ⟨e, herr, r', hr', h2⟩ | ⟨hok, hbad⟩
      · refine Or.inl ⟨e, ?_, r', List.mem_cons_of_mem _ hr', h2⟩
        simp only [classifyPerms, hs, if_false]
        simp [herr, Except.map, hs]
      · refine Or.inr ⟨?_, ?_⟩
        · simp only [classifyPerms, hs, if_false]
          simp [hok, Except.map, List.filterMap_cons, permsOkEntry, permsFailEntry, hs]
        · intro r' hmem h200'
          rcases List.mem_cons.1 hmem with rfl | htail
          · exact absurd h200' hs
          · exact hbad r' htail h200'

/-- A successful run of the classification loop equals the `filterMap`
characterization (contents). -/
theorem classifyContents_ok_eq {l : List (Nat × HResponse)}
    {succ : List (Nat × JValue)} {fail : List (Nat × ContentsFail)}
    (h : classifyContents l = .ok (succ, fail)) :
    succ = l.filterMap contentsOkEntry ∧ fail = l.filterMap contentsFailEntry := by
  rcases classifyContents_cases l with ⟨e, herr, _⟩ | ⟨hok, _⟩
  · rw [herr] at h; cases h
  · rw [hok] at h
    injection h with h
    exact ⟨(congrArg Prod.fst h).symm, (congrArg Prod.snd h).symm⟩

/-- A successful run of the classification loop equals the `filterMap`
characterization (dataset metadata). -/
theorem classifyMeta_ok_eq {l : List HResponse}
    {ms : List (JValue × JValue)} {mf : List (String × Nat)}
    (h : classifyMeta l = .ok (ms, mf)) :
    ms = l.filterMap metaOkEntry ∧ mf = l.filterMap metaFailEntry := by
  rcases classifyMeta_cases l with ⟨e, herr, _⟩ | ⟨hok, _⟩
  · rw [herr] at h; cases h
  · rw [hok] at h
    injection h with h
    exact ⟨(congrArg Prod.fst h).symm, (congrArg Prod.snd h).symm⟩

/-- A successful run of the classification loop equals the `filterMap`
characterization (permissions). -/
theorem classifyPerms_ok_eq {d : List (String × Nat)} {l : List HResponse}
    {ps : List (Option Nat × JValue)} {pf : List (String × Nat)}
    (h : classifyPerms d l = .ok (ps, pf)) :
    ps = l.filterMap (permsOkEntry d) ∧ pf = l.filterMap permsFailEntry := by
  rcases classifyPerms_cases d l with ⟨e, herr, _⟩ | ⟨hok, _⟩
  · rw [herr] at h; cases h
  · rw [hok] at h
    injection h with h
    exact ⟨(congrArg Prod.fst h).symm, (congrArg Prod.snd h).symm⟩

/-- A list zipped with its own image under `f`. -/
theorem zip_map_self {α β : Type} (f : α → β) :
    ∀ l : List α, l.zip (l.map f) = l.map (fun a => (a, f a))
  | [] => rfl
  | a :: t => by simp [zip_map_self f t]

theorem contentsOkEntry_some {j : Nat} {r : HResponse} {p1 : Nat} {p2 : JValue} :
    contentsOkEntry (j, r) = some (p1, p2) ↔
    p1 = j ∧ r.status = 200 ∧ r.body = some p2 ∧ p2.truthy = true := by
  unfold contentsOkEntry
  constructor
  · intro he
    by_cases h200 : r.status = 200
    · rw [if_pos h200] at he
      cases hb : r.body with
      | none => rw [hb] at he; cases he
      | some b =>
        rw [hb] at he
        have he' : (if b.truthy = true then some (j, b) else none) = some (p1, p2) := he
        by_cases ht : b.truthy = true
        · rw [if_pos ht] at he'
          have hpair := Option.some_inj.1 he'
          injection hpair with h1 h2
          subst h1; subst h2
          exact ⟨rfl, h200, rfl, ht⟩
        · rw [if_neg ht] at he'; cases he'
    · rw [if_neg h200] at he; cases he
  · rintro ⟨rfl, h200, hb, ht⟩
    rw [if_pos h200, hb]
    show (if p2.truthy = true then some (p1, p2) else none) = some (p1, p2)
    rw [if_pos ht]

theorem contentsFailEntry_some {j : Nat} {r : HResponse} {q : Nat × ContentsFail} :
    contentsFailEntry (j, r) = some q ↔
    q.1 = j ∧ q.2 = ⟨r.url, r.status⟩ ∧
      (r.status ≠ 200 ∨ ∃ b, r.body = some b ∧ b.truthy = false) := by
  unfold contentsFailEntry
  constructor
  · intro he
    by_cases h200 : r.status = 200
    · rw [if_pos h200] at he
      cases hb : r.body with
      | none => rw [hb] at he; cases he
      | some b =>
        rw [hb] at he
        have he' : (if b.truthy = true then none
            else some (j, (⟨r.url, r.status⟩ : ContentsFail))) = some q := he
        by_cases ht : b.truthy = true
        · rw [if_pos ht] at he'; cases he'
        · rw [if_neg ht] at he'
          have := (Option.some_inj.1 he').symm
          exact ⟨congrArg Prod.fst this, congrArg Prod.snd this,
            Or.inr ⟨b, rfl, Bool.eq_false_iff.2 ht⟩⟩
    · rw [if_neg h200] at he
      have := (Option.some_inj.1 he).symm
      exact ⟨congrArg Prod.fst this, congrArg Prod.snd this, Or.inl h200⟩
  · rintro ⟨h1, h2, h3⟩
    have hq : q = (j, (⟨r.url, r.status⟩ : ContentsFail)) := by
      obtain ⟨q1, q2⟩ := q
      simp only at h1 h2
      rw [h1, h2]
    subst hq
    rcases h3 with h200 | ⟨b, hb, ht⟩
    · rw [if_neg h200]
    · by_cases h200 : r.status = 200
      · rw [if_pos h200, hb]
        show (if b.truthy = true then none
            else some (j, (⟨r.url, r.status⟩ : ContentsFail)))
          = some (j, (⟨r.url, r.status⟩ : ContentsFail))
        rw [if_neg (by rw [ht]; exact Bool.false_ne_true)]
      · rw [if_neg h200]

theorem metaOkEntry_some {r : HResponse} {k b : JValue} :
    metaOkEntry r = some (k, b) ↔
    r.status = 200 ∧ r.body = some b ∧ b.truthy = true ∧ pidOf b = some k := by
  unfold metaOkEntry
  constructor
  · intro he
    by_cases h200 : r.status = 200
    · rw [if_pos h200] at he
      cases hb : r.body with
      | none => rw [hb] at he; cases he
      | some b' =>
        rw [hb] at he
        have he' : (if b'.truthy = true then
            (match pidOf b' with
             | some k' => some (k', b')
             | none => none)
          else none) = some (k, b) := he
        by_cases ht : b'.truthy = true
        · rw [if_pos ht] at he'
          cases hp : pidOf b' with
          | none => rw [hp] at he'; cases he'
          | some k' =>
            rw [hp] at he'
            have he'' : some (k', b') = some (k, b) := he'
            have hpair := Option.some_inj.1 he''
            injection hpair with h1 h2
            subst h1; subst h2
            exact ⟨h200, rfl, ht, hp⟩
        · rw [if_neg ht] at he'; cases he'
    · rw [if_neg h200] at he; cases he
  · rintro ⟨h200, hb, ht, hp⟩
    rw [if_pos h200, hb]
    show (if b.truthy = true then
        (match pidOf b with
         | some k' => some (k', b)
         | none => none)
      else none) = some (k, b)
    rw [if_pos ht, hp]

theorem metaFailEntry_some {r : HResponse} {q : String × Nat} :
    metaFailEntry r = some q ↔ r.status ≠ 200 ∧ q = (r.url, r.status) := by
  unfold metaFailEntry
  by_cases h200 : r.status = 200
  · rw [if_pos h200]
    simp [h200]
  · rw [if_neg h200]
    simp [h200, eq_comm]

theorem permsOkEntry_some {d : List (String × Nat)} {r : HResponse}
    {p1 : Option Nat} {p2 : JValue} :
    permsOkEntry d r = some (p1, p2) ↔
    p1 = d.lookup r.url ∧ r.status = 200 ∧ r.body = some p2 ∧ p2.truthy = true := by
  unfold permsOkEntry
  constructor
  · intro he
    by_cases h200 : r.status = 200
    · rw [if_pos h200] at he
      cases hb : r.body with
      | none => rw [hb] at he; cases he
      | some b =>
        rw [hb] at he
        have he' : (if b.truthy = true then some (d.lookup r.url, b) else none)
            = some (p1, p2) := he
        by_cases ht : b.truthy = true
        · rw [if_pos ht] at he'
          have hpair := Option.some_inj.1 he'
          injection hpair with h1 h2
          subst h1; subst h2
          exact ⟨rfl, h200, rfl, ht⟩
        · rw [if_neg ht] at he'; cases he'
    · rw [if_neg h200] at he; cases he
  · rintro ⟨rfl, h200, hb, ht⟩
    rw [if_pos h200, hb]
    show (if p2.truthy = true then some (d.lookup r.url, p2) else none)
        = some (d.lookup r.url, p2)
    rw [if_pos ht]

theorem permsFailEntry_some {r : HResponse} {q : String × Nat} :
    permsFailEntry r = some q ↔
    q = (r.url, r.status) ∧ (r.status ≠ 200 ∨ ∃ b, r.body = some b ∧ b.truthy = false) := by
  unfold permsFailEntry
  constructor
  · intro he
    by_cases h200 : r.status = 200
    · rw [if_pos h200] at he
      cases hb : r.body with
      | none => rw [hb] at he; cases he
      | some b =>
        rw [hb] at he
        have he' : (if b.truthy = true then none else some (r.url, r.status)) = some q := he
        by_cases ht : b.truthy = true
        · rw [if_pos ht] at he'; cases he'
        · rw [if_neg ht] at he'
          exact ⟨(Option.some_inj.1 he').symm, Or.inr ⟨b, rfl, Bool.eq_false_iff.2 ht⟩⟩
    · rw [if_neg h200] at he
      exact ⟨(Option.some_inj.1 he).symm, Or.inl h200⟩
  · rintro ⟨rfl, h3⟩
    rcases h3 with h200 | ⟨b, hb, ht⟩
    · rw [if_neg h200]
    · by_cases h200 : r.status = 200
      · rw [if_pos h200, hb]
        show (if b.truthy = true then none else some (r.url, r.status)) = some (r.url, r.status)
        rw [if_neg (by rw [ht]; exact Bool.false_ne_true)]
      · rw [if_neg h200]

/-- The response list seen by `get_dataverse_contents`, zipped with its
identifier list, is the per-identifier response map. -/
theorem contents_pairs_eq (cfg : Config) (ids : List Nat) (net : String → NetOutcome) :
    ids.zip (async_get (ids.map (contentsUrl cfg)) net)
      = ids.map (fun i => (i, contentsRespFor cfg net i)) := by
  show ids.zip ((ids.map (contentsUrl cfg)).map (fun u => asyncSemaphoreClient u (net u))) = _
  rw [List.map_map]
  exact zip_map_self _ ids

/-! ## Claim C4: contents-fetch success requires a truthy 200 body -/

/-- C4.  In `get_dataverse_contents`, a collection identifier reaches the
success map only when its response has HTTP status 200 *and* a non-empty
(truthy) JSON body; an HTTP-200 response whose JSON body is empty is placed in
the failure map and not in the success map. -/
theorem contents_success_iff_truthy_200 (cfg : Config) (ids : List Nat)
    (net : String → NetOutcome) (succ : List (Nat × JValue)) (fail : List (Nat × ContentsFail))
    (hok : get_dataverse_contents cfg ids net = .ok (succ, fail)) :
    (∀ i v, (i, v) ∈ succ →
      (contentsRespFor cfg net i).status = 200 ∧
      (contentsRespFor cfg net i).body = some v ∧ v.truthy = true) ∧
    (∀ i ∈ ids, ∀ b, (contentsRespFor cfg net i).status = 200 →
      (contentsRespFor cfg net i).body = some b → b.truthy = false →
      (i, ⟨(contentsRespFor cfg net i).url, (contentsRespFor cfg net i).status⟩) ∈ fail ∧
      ∀ v, (i, v) ∉ succ) := by
  have hok' : classifyContents (ids.map (fun i => (i, contentsRespFor cfg net i)))
      = .ok (succ, fail) := by
    rw [← contents_pairs_eq cfg ids net]
    exact hok
  obtain ⟨hsucc, hfail⟩ := classifyContents_ok_eq hok'
  have hmem_succ : ∀ i v, (i, v) ∈ succ →
      (contentsRespFor cfg net i).status = 200 ∧
      (contentsRespFor cfg net i).body = some v ∧ v.truthy = true := by
    intro i v hmem
    rw [hsucc] at hmem
    obtain ⟨a, ha, hea⟩ := List.mem_filterMap.1 hmem
    obtain ⟨j, _, rfl⟩ := List.mem_map.1 ha
    obtain ⟨h1, h2, h3, h4⟩ := contentsOkEntry_some.1 hea
    subst h1
    exact ⟨h2, h3, h4⟩
  refine ⟨hmem_succ, ?_⟩
  intro i hi b h200 hb ht
  constructor
  · rw [hfail]
    refine List.mem_filterMap.2 ⟨(i, contentsRespFor cfg net i), List.mem_map_of_mem _ hi, ?_⟩
    exact contentsFailEntry_some.2 ⟨rfl, rfl, Or.inr ⟨b, hb, ht⟩⟩
  · intro v hv
    obtain ⟨_, hbv, htv⟩ := hmem_succ i v hv
    rw [hb] at hbv
    rw [Option.some_inj.1 hbv] at ht
    rw [htv] at ht
    cases ht

/-- Witness for C4: with every response HTTP 200 carrying the empty JSON
object, the single collection id 5 lands in the failure map and the success
map stays empty. -/
theorem contents_success_iff_truthy_200_witness :
    get_dataverse_contents cfgW [5] netEmptyObjW
      = .ok ([], [(5, ⟨contentsUrl cfgW 5, 200⟩)]) ∧
    ((∀ i v, (i, v) ∈ ([] : List (Nat × JValue)) →
      (contentsRespFor cfgW netEmptyObjW i).status = 200 ∧
      (contentsRespFor cfgW netEmptyObjW i).body = some v ∧ v.truthy = true) ∧
    (∀ i ∈ [5], ∀ b, (contentsRespFor cfgW netEmptyObjW i).status = 200 →
      (contentsRespFor cfgW netEmptyObjW i).body = some b → b.truthy = false →
      (i, ⟨(contentsRespFor cfgW netEmptyObjW i).url, (contentsRespFor cfgW netEmptyObjW i).status⟩)
          ∈ [(5, (⟨contentsUrl cfgW 5, 200⟩ : ContentsFail))] ∧
      ∀ v, (i, v) ∉ ([] : List (Nat × JValue)))) :=
  ⟨rfl, contents_success_iff_truthy_200 cfgW [5] netEmptyObjW _ _ rfl⟩

/-- Building `id_url_dict` by repeated `dictInsert` over ids with pairwise
distinct URLs is just the association list of `(url, id)` pairs. -/
theorem foldl_dictInsert (f : Nat → String) :
    ∀ (ids : List Nat) (acc : List (String × Nat)),
    (acc.map Prod.fst ++ ids.map f).Nodup →
    ids.foldl (fun d i => dictInsert d (f i) i) acc = acc ++ ids.map (fun i => (f i, i)) := by
  intro ids
  induction ids with
  | nil => intro acc _; simp
  | cons i rest ih =>
    intro acc hnd
    have hnd' := hnd
    rw [List.nodup_append] at hnd'
    have hnotin : f i ∉ acc.map Prod.fst := by
      intro hmem
      exact hnd'.2.2 hmem (by simp)
    have hins : dictInsert acc (f i) i = acc ++ [(f i, i)] := by
      unfold dictInsert
      rw [if_neg ?_]
      intro hany
      obtain ⟨kv, hkv, hbeq⟩ := List.any_eq_true.1 hany
      exact hnotin ((eq_of_beq hbeq) ▸ List.mem_map_of_mem Prod.fst hkv)
    show rest.foldl (fun d i => dictInsert d (f i) i) (dictInsert acc (f i) i) = _
    rw [hins, ih (acc ++ [(f i, i)]) ?_]
    · simp
    · have : (acc ++ [(f i, i)]).map Prod.fst ++ rest.map f
          = acc.map Prod.fst ++ (f i :: rest.map f) := by simp
      rw [this]
      exact hnd

/-- Looking up a URL in the `(url, id)` association list recovers its id when
the URLs are pairwise distinct. -/
theorem lookup_url_map (f : Nat → String) :
    ∀ (ids : List Nat), (ids.map f).Nodup →
    ∀ i ∈ ids, (ids.map (fun i => (f i, i))).lookup (f i) = some i := by
  intro ids
  induction ids with
  | nil => intro _ i h; cases h
  | cons j rest ih =>
    intro hnd i hi
    simp only [List.map_cons, List.nodup_cons] at hnd
    rcases List.mem_cons.1 hi with rfl | hmem
    · simp [List.lookup]
    · have hne : (f i == f j) = false := by
        refine beq_false_of_ne fun he => hnd.1 (he ▸ List.mem_map_of_mem f hmem)
      simp only [List.map_cons, List.lookup, hne]
      exact ih hnd.2 i hmem

/-- With an echoing network (responses carry their request URL), the URL of
the response the client observes for a request is the request URL itself (the
synthetic transport-failure response is built with it). -/
theorem asyncSemaphoreClient_url {net : String → NetOutcome}
    (hecho : ∀ u r', net u = .resp r' → r'.url = u) (u : String) :
    (asyncSemaphoreClient u (net u)).url = u := by
  cases h : net u with
  | resp r => show r.url = u; exact hecho u r h
  | exn => rfl

/-! ## Claim C3: batch-fetch failure accounting (corrected) -/

/-- Counterexample to C3 as stated, twice over, both times at an HTTP-200
response.  (i) In `get_datasets_meta`, a 200 response whose JSON body is the
empty object `{}` fails the success test (falsy body), fails the
`status_code != 200` test, and is not a `list`, so its input identifier is
recorded in *neither* returned map: with the single persistent id
`doi:10/AAA` the batch returns `(∅, ∅)`.  (ii) A 200 response whose body does
not decode as JSON makes `item.json()` raise inside the batch
(`Except.error` in the embedding), so "the batch operation never raises to
its caller" also fails as stated — though only for a status-200 response,
never for the non-2xx/transport responses the claim's first part is about. -/
theorem batch_fetch_partition_cex :
    ((metaRespFor cfgW netEmptyObjW "doi:10/AAA").status = 200 ∧
      get_datasets_meta cfgW ["doi:10/AAA"] netEmptyObjW = .ok ([], [])) ∧
    ((metaRespFor cfgW netBadBodyW "doi:10/B").status = 200 ∧
      get_datasets_meta cfgW ["doi:10/B"] netBadBodyW = .error "JSONDecodeError") :=
  ⟨⟨rfl, rfl⟩, ⟨rfl, rfl⟩⟩

/-- C3 (amended).  For every batch fetch, a non-2xx response — including the
synthetic status-500 response a transport-level error is converted into — is
recorded in the returned failure map and excluded from the success map, and
such responses never cause a raise: an exception can only originate from a
status-200 response (whose body fails to decode as JSON).  Every input
identifier lands in exactly one of the two returned maps for the contents and
permissions batches; in the metadata batch every non-2xx response is recorded
in the failure map keyed by URL and every success entry originates from a
status-200 response with a truthy body, but a 200 response with an empty JSON
body is recorded in neither map. -/
theorem batch_fetch_failure_accounting (cfg : Config) (net : String → NetOutcome) :
    (∀ (ids : List Nat) succ fail, get_dataverse_contents cfg ids net = .ok (succ, fail) →
      ∀ i ∈ ids,
        (((∃ v, (i, v) ∈ succ) ∧ (∀ e, (i, e) ∉ fail)) ∨
          ((∃ e, (i, e) ∈ fail) ∧ (∀ v, (i, v) ∉ succ))) ∧
        ((contentsRespFor cfg net i).status ≠ 200 →
          (i, (⟨(contentsRespFor cfg net i).url, (contentsRespFor cfg net i).status⟩ : ContentsFail))
              ∈ fail ∧
          ∀ v, (i, v) ∉ succ) ∧
        (net (contentsUrl cfg i) = .exn →
          (i, (⟨contentsUrl cfg i, 500⟩ : ContentsFail)) ∈ fail ∧
          ∀ v, (i, v) ∉ succ)) ∧
    (∀ (pids : List String) ms mf, get_datasets_meta cfg pids net = .ok (ms, mf) →
      (∀ pid ∈ pids, (metaRespFor cfg net pid).status ≠ 200 →
        ((metaRespFor cfg net pid).url, (metaRespFor cfg net pid).status) ∈ mf) ∧
      (∀ q ∈ mf, ∃ pid ∈ pids, (metaRespFor cfg net pid).status ≠ 200 ∧
        q = ((metaRespFor cfg net pid).url, (metaRespFor cfg net pid).status)) ∧
      (∀ p ∈ ms, ∃ pid ∈ pids, (metaRespFor cfg net pid).status = 200 ∧
        (metaRespFor cfg net pid).body = some p.2 ∧ p.2.truthy = true ∧
        pidOf p.2 = some p.1) ∧
      (∀ pid ∈ pids, net (datasetContentUrl cfg pid) = .exn →
        (datasetContentUrl cfg pid, 500) ∈ mf)) ∧
    (∀ (r : HResponse) (rest : List HResponse) (b : JValue), r.status = 200 →
      r.body = some b → b.truthy = false → classifyMeta (r :: rest) = classifyMeta rest) ∧
    (∀ (ids : List Nat) ps pf, ids.Nodup → (ids.map (permissionUrl cfg)).Nodup →
      (∀ u r', net u = .resp r' → r'.url = u) →
      get_datasets_permissions cfg ids net = .ok (ps, pf) →
      ∀ i ∈ ids,
        (((∃ b, (some i, b) ∈ ps) ∧ (∀ c, (permissionUrl cfg i, c) ∉ pf)) ∨
          ((∃ c, (permissionUrl cfg i, c) ∈ pf) ∧ (∀ b, (some i, b) ∉ ps))) ∧
        ((permRespFor cfg net i).status ≠ 200 →
          (permissionUrl cfg i, (permRespFor cfg net i).status) ∈ pf ∧
          ∀ b, (some i, b) ∉ ps) ∧
        (net (permissionUrl cfg i) = .exn →
          (permissionUrl cfg i, 500) ∈ pf ∧
          ∀ b, (some i, b) ∉ ps)) ∧
    (∀ (ids : List Nat) e, get_dataverse_contents cfg ids net = .error e →
      ∃ i ∈ ids, (contentsRespFor cfg net i).status = 200) ∧
    (∀ (pids : List String) e, get_datasets_meta cfg pids net = .error e →
      ∃ pid ∈ pids, (metaRespFor cfg net pid).status = 200) ∧
    (∀ (ids : List Nat) e, (ids.map (permissionUrl cfg)).Nodup →
      get_datasets_permissions cfg ids net = .error e →
      ∃ i ∈ ids, (permRespFor cfg net i).status = 200) := by
  have hmeta_pairs : ∀ (pids : List String),
      async_get (pids.map (datasetContentUrl cfg)) net
        = pids.map (fun pid => metaRespFor cfg net pid) := by
    intro pids
    show (pids.map (datasetContentUrl cfg)).map (fun u => asyncSemaphoreClient u (net u)) = _
    rw [List.map_map]
    rfl
  refine ⟨?_, ?_, ?_, ?_, ?_, ?_, ?_⟩
  · -- contents partition
    intro ids succ fail hok i hi
    have hok' : classifyContents (ids.map (fun i => (i, contentsRespFor cfg net i)))
        = .ok (succ, fail) := by
      rw [← contents_pairs_eq cfg ids net]; exact hok
    rcases classifyContents_cases (ids.map (fun i => (i, contentsRespFor cfg net i))) with
      ⟨e, herr, _⟩ | ⟨hco, hnobad⟩
    · rw [herr] at hok'; cases hok'
    rw [hco] at hok'
    injection hok' with hok''
    have hsucc : succ = (ids.map (fun i => (i, contentsRespFor cfg net i))).filterMap contentsOkEntry :=
      (congrArg Prod.fst hok'').symm
    have hfail : fail = (ids.map (fun i => (i, contentsRespFor cfg net i))).filterMap contentsFailEntry :=
      (congrArg Prod.snd hok'').symm
    have hsucc_resp : ∀ v, (i, v) ∈ succ →
        (contentsRespFor cfg net i).status = 200 ∧
        (contentsRespFor cfg net i).body = some v ∧ v.truthy = true := by
      intro v hv
      rw [hsucc] at hv
      obtain ⟨a, ha, hea⟩ := List.mem_filterMap.1 hv
      obtain ⟨j, _, rfl⟩ := List.mem_map.1 ha
      obtain ⟨h1, h2, h3, h4⟩ := contentsOkEntry_some.1 hea
      subst h1
      exact ⟨h2, h3, h4⟩
    have hfail_resp : ∀ e, (i, e) ∈ fail →
        ((contentsRespFor cfg net i).status ≠ 200 ∨
          ∃ b, (contentsRespFor cfg net i).body = some b ∧ b.truthy = false) := by
      intro e he
      rw [hfail] at he
      obtain ⟨a, ha, hea⟩ := List.mem_filterMap.1 he
      obtain ⟨j, _, rfl⟩ := List.mem_map.1 ha
      obtain ⟨h1, _, h3⟩ := contentsFailEntry_some.1 hea
      simp only at h1
      subst h1
      exact h3
    have hnot200 : (contentsRespFor cfg net i).status ≠ 200 →
        (i, (⟨(contentsRespFor cfg net i).url, (contentsRespFor cfg net i).status⟩ : ContentsFail))
            ∈ fail ∧
        ∀ v, (i, v) ∉ succ := by
      intro h200
      refine ⟨?_, ?_⟩
      · rw [hfail]
        exact List.mem_filterMap.2 ⟨(i, contentsRespFor cfg net i), List.mem_map_of_mem _ hi,
          contentsFailEntry_some.2 ⟨rfl, rfl, Or.inl h200⟩⟩
      · intro v hv
        exact h200 (hsucc_resp v hv).1
    have htrans : net (contentsUrl cfg i) = .exn →
        (i, (⟨contentsUrl cfg i, 500⟩ : ContentsFail)) ∈ fail ∧
        ∀ v, (i, v) ∉ succ := by
      intro hexn
      have hre : contentsRespFor cfg net i = ⟨500, contentsUrl cfg i, none⟩ := by
        unfold contentsRespFor asyncSemaphoreClient
        rw [hexn]
      have hst : (contentsRespFor cfg net i).status = 500 := by rw [hre]
      have hgoal := hnot200 (by rw [hst]; omega)
      rw [hre] at hgoal
      exact hgoal
    refine ⟨?_, hnot200, htrans⟩
    by_cases h200 : (contentsRespFor cfg net i).status = 200
    · cases hbody : (contentsRespFor cfg net i).body with
      | none =>
        exact absurd hbody (hnobad (i, contentsRespFor cfg net i) (List.mem_map_of_mem _ hi) h200)
      | some b =>
        cases ht : b.truthy
        · -- 200 with falsy body: failure, not success
          refine Or.inr ⟨⟨⟨(contentsRespFor cfg net i).url, (contentsRespFor cfg net i).status⟩, ?_⟩, ?_⟩
          · rw [hfail]
            exact List.mem_filterMap.2 ⟨(i, contentsRespFor cfg net i), List.mem_map_of_mem _ hi,
              contentsFailEntry_some.2 ⟨rfl, rfl, Or.inr ⟨b, hbody, ht⟩⟩⟩
          · intro v hv
            obtain ⟨_, hb', ht'⟩ := hsucc_resp v hv
            rw [hbody] at hb'
            rw [← Option.some_inj.1 hb'] at ht'
            rw [ht] at ht'
            cases ht'
        · -- 200 with truthy body: success, not failure
          refine Or.inl ⟨⟨b, ?_⟩, ?_⟩
          · rw [hsucc]
            exact List.mem_filterMap.2 ⟨(i, contentsRespFor cfg net i), List.mem_map_of_mem _ hi,
              contentsOkEntry_some.2 ⟨rfl, h200, hbody, ht⟩⟩
          · intro e he
            rcases hfail_resp e he with hne | ⟨b', hb', ht'⟩
            · exact hne h200
            · rw [hbody] at hb'
              rw [← Option.some_inj.1 hb'] at ht'
              rw [ht] at ht'
              cases ht'
    · -- non-200: failure, not success
      exact Or.inr ⟨⟨_, (hnot200 h200).1⟩, (hnot200 h200).2⟩
  · -- metadata failure accounting
    intro pids ms mf hok
    have hok' : classifyMeta (pids.map (fun pid => metaRespFor cfg net pid)) = .ok (ms, mf) := by
      rw [← hmeta_pairs pids]; exact hok
    obtain ⟨hms, hmf⟩ := classifyMeta_ok_eq hok'
    have ha : ∀ pid ∈ pids, (metaRespFor cfg net pid).status ≠ 200 →
        ((metaRespFor cfg net pid).url, (metaRespFor cfg net pid).status) ∈ mf := by
      intro pid hpid hne
      rw [hmf]
      exact List.mem_filterMap.2 ⟨metaRespFor cfg net pid, List.mem_map_of_mem _ hpid,
        metaFailEntry_some.2 ⟨hne, rfl⟩⟩
    refine ⟨ha, ?_, ?_, ?_⟩
    · intro q hq
      rw [hmf] at hq
      obtain ⟨r, hr, hre⟩ := List.mem_filterMap.1 hq
      obtain ⟨pid, hpid, rfl⟩ := List.mem_map.1 hr
      obtain ⟨h1, h2⟩ := metaFailEntry_some.1 hre
      exact ⟨pid, hpid, h1, h2⟩
    · -- success entries originate exclusively from 200, truthy-body responses
      intro p hp
      obtain ⟨p1, p2⟩ := p
      rw [hms] at hp
      obtain ⟨r, hr, hre⟩ := List.mem_filterMap.1 hp
      obtain ⟨pid, hpid, rfl⟩ := List.mem_map.1 hr
      obtain ⟨h200, hb, ht, hpk⟩ := metaOkEntry_some.1 hre
      exact ⟨pid, hpid, h200, hb, ht, hpk⟩
    · -- a transport error becomes the synthetic 500 entry in the failure map
      intro pid hpid hexn
      have hre : metaRespFor cfg net pid = ⟨500, datasetContentUrl cfg pid, none⟩ := by
        unfold metaRespFor asyncSemaphoreClient
        rw [hexn]
      have hst : (metaRespFor cfg net pid).status = 500 := by rw [hre]
      have hgoal := ha pid hpid (by rw [hst]; omega)
      rw [hre] at hgoal
      exact hgoal
  · -- the metadata drop: 200 with falsy body contributes to neither map
    intro r rest b h200 hb ht
    simp only [classifyMeta, h200, if_true]
    rw [hb]
    have hmap : ∀ x : Except String (List (JValue × JValue) × List (String × Nat)),
        Except.map (fun p => p) x = x := by
      intro x; cases x <;> rfl
    simp [ht, hmap]
  · -- permissions partition
    intro ids ps pf hids hurls hecho hok i hi
    have hdict : ids.foldl (fun d i => dictInsert d (permissionUrl cfg i) i) []
        = ids.map (fun i => (permissionUrl cfg i, i)) := by
      have := foldl_dictInsert (permissionUrl cfg) ids []
      simp only [List.map_nil, List.nil_append] at this
      exact this hurls
    have hresp : async_get ((ids.map (fun i => (permissionUrl cfg i, i))).map Prod.fst) net
        = ids.map (fun i => permRespFor cfg net i) := by
      rw [List.map_map]
      show (ids.map (permissionUrl cfg)).map (fun u => asyncSemaphoreClient u (net u)) = _
      rw [List.map_map]
      rfl
    have hok' : classifyPerms (ids.map (fun i => (permissionUrl cfg i, i)))
        (ids.map (fun i => permRespFor cfg net i)) = .ok (ps, pf) := by
      rw [← hresp, ← hdict]
      exact hok
    rcases classifyPerms_cases (ids.map (fun i => (permissionUrl cfg i, i)))
        (ids.map (fun i => permRespFor cfg net i)) with ⟨e, herr, _⟩ | ⟨hco, hnobad⟩
    · rw [herr] at hok'; cases hok'
    rw [hco] at hok'
    injection hok' with hok''
    have hps : ps = (ids.map (fun i => permRespFor cfg net i)).filterMap
        (permsOkEntry (ids.map (fun i => (permissionUrl cfg i, i)))) :=
      (congrArg Prod.fst hok'').symm
    have hpf : pf = (ids.map (fun i => permRespFor cfg net i)).filterMap permsFailEntry :=
      (congrArg Prod.snd hok'').symm
    have hurl : ∀ j, (permRespFor cfg net j).url = permissionUrl cfg j := by
      intro j
      exact asyncSemaphoreClient_url hecho (permissionUrl cfg j)
    have hinj : ∀ x ∈ ids, ∀ y ∈ ids, permissionUrl cfg x = permissionUrl cfg y → x = y :=
      List.inj_on_of_nodup_map hurls
    have hlook : ∀ j ∈ ids,
        (ids.map (fun i => (permissionUrl cfg i, i))).lookup (permRespFor cfg net j).url
          = some j := by
      intro j hj
      rw [hurl j]
      exact lookup_url_map (permissionUrl cfg) ids hurls j hj
    have hps_resp : ∀ b, (some i, b) ∈ ps →
        (permRespFor cfg net i).status = 200 ∧
        (permRespFor cfg net i).body = some b ∧ b.truthy = true := by
      intro b hb
      rw [hps] at hb
      obtain ⟨r, hr, hre⟩ := List.mem_filterMap.1 hb
      obtain ⟨j, hj, rfl⟩ := List.mem_map.1 hr
      obtain ⟨h1, h2, h3, h4⟩ := permsOkEntry_some.1 hre
      rw [hlook j hj] at h1
      have hij : j = i := Option.some_inj.1 h1.symm
      subst hij
      exact ⟨h2, h3, h4⟩
    have hpf_resp : ∀ c, (permissionUrl cfg i, c) ∈ pf →
        ((permRespFor cfg net i).status ≠ 200 ∨
          ∃ b, (permRespFor cfg net i).body = some b ∧ b.truthy = false) := by
      intro c hc
      rw [hpf] at hc
      obtain ⟨r, hr, hre⟩ := List.mem_filterMap.1 hc
      obtain ⟨j, hj, rfl⟩ := List.mem_map.1 hr
      obtain ⟨h1, h2⟩ := permsFailEntry_some.1 hre
      have hju : permissionUrl cfg i = (permRespFor cfg net j).url := congrArg Prod.fst h1
      rw [hurl j] at hju
      have hij : j = i := (hinj i hi j hj hju).symm
      subst hij
      exact h2
    have hnot200 : (permRespFor cfg net i).status ≠ 200 →
        (permissionUrl cfg i, (permRespFor cfg net i).status) ∈ pf ∧
        ∀ b, (some i, b) ∉ ps := by
      intro h200
      refine ⟨?_, ?_⟩
      · rw [hpf]
        refine List.mem_filterMap.2 ⟨permRespFor cfg net i, List.mem_map_of_mem _ hi, ?_⟩
        rw [show (permissionUrl cfg i, (permRespFor cfg net i).status)
            = ((permRespFor cfg net i).url, (permRespFor cfg net i).status) from by rw [hurl i]]
        exact permsFailEntry_some.2 ⟨rfl, Or.inl h200⟩
      · intro b hb
        exact h200 (hps_resp b hb).1
    have htrans : net (permissionUrl cfg i) = .exn →
        (permissionUrl cfg i, 500) ∈ pf ∧
        ∀ b, (some i, b) ∉ ps := by
      intro hexn
      have hre : permRespFor cfg net i = ⟨500, permissionUrl cfg i, none⟩ := by
        unfold permRespFor asyncSemaphoreClient
        rw [hexn]
      have hst : (permRespFor cfg net i).status = 500 := by rw [hre]
      have hgoal := hnot200 (by rw [hst]; omega)
      rw [hst] at hgoal
      exact hgoal
    refine ⟨?_, hnot200, htrans⟩
    by_cases h200 : (permRespFor cfg net i).status = 200
    · cases hbody : (permRespFor cfg net i).body with
      | none =>
        exact absurd hbody (hnobad (permRespFor cfg net i) (List.mem_map_of_mem _ hi) h200)
      | some b =>
        cases ht : b.truthy
        · refine Or.inr ⟨⟨(permRespFor cfg net i).status, ?_⟩, ?_⟩
          · rw [hpf]
            refine List.mem_filterMap.2 ⟨permRespFor cfg net i, List.mem_map_of_mem _ hi, ?_⟩
            rw [show (permissionUrl cfg i, (permRespFor cfg net i).status)
                = ((permRespFor cfg net i).url, (permRespFor cfg net i).status) from by rw [hurl i]]
            exact permsFailEntry_some.2 ⟨rfl, Or.inr ⟨b, hbody, ht⟩⟩
          · intro b' hb'
            obtain ⟨_, hb'', ht'⟩ := hps_resp b' hb'
            rw [hbody] at hb''
            rw [← Option.some_inj.1 hb''] at ht'
            rw [ht] at ht'
            cases ht'
        · refine Or.inl ⟨⟨b, ?_⟩, ?_⟩
          · rw [hps]
            refine List.mem_filterMap.2 ⟨permRespFor cfg net i, List.mem_map_of_mem _ hi, ?_⟩
            refine permsOkEntry_some.2 ⟨?_, h200, hbody, ht⟩
            exact (hlook i hi).symm
          · intro c hc
            rcases hpf_resp c hc with hne | ⟨b', hb', ht'⟩
            · exact hne h200
            · rw [hbody] at hb'
              rw [← Option.some_inj.1 hb'] at ht'
              rw [ht] at ht'
              cases ht'
    · exact Or.inr ⟨⟨_, (hnot200 h200).1⟩, (hnot200 h200).2⟩
  · -- contents: an exception implies a 200 response
    intro ids e herr
    have herr' : classifyContents (ids.map (fun i => (i, contentsRespFor cfg net i))) = .error e := by
      rw [← contents_pairs_eq cfg ids net]; exact herr
    rcases classifyContents_cases (ids.map (fun i => (i, contentsRespFor cfg net i))) with
      ⟨e', herr'', ir, hir, h200, _⟩ | ⟨hco, _⟩
    · obtain ⟨i, hi, rfl⟩ := List.mem_map.1 hir
      exact ⟨i, hi, h200⟩
    · rw [hco] at herr'; cases herr'
  · -- metadata: an exception implies a 200 response
    intro pids e herr
    have herr' : classifyMeta (pids.map (fun pid => metaRespFor cfg net pid)) = .error e := by
      rw [← hmeta_pairs pids]; exact herr
    rcases classifyMeta_cases (pids.map (fun pid => metaRespFor cfg net pid)) with
      ⟨e', herr'', r, hr, h200⟩ | ⟨hco, _⟩
    · obtain ⟨pid, hpid, rfl⟩ := List.mem_map.1 hr
      exact ⟨pid, hpid, h200⟩
    · rw [hco] at herr'; cases herr'
  · -- permissions: an exception implies a 200 response
    intro ids e hurls herr
    have hdict : ids.foldl (fun d i => dictInsert d (permissionUrl cfg i) i) []
        = ids.map (fun i => (permissionUrl cfg i, i)) := by
      have := foldl_dictInsert (permissionUrl cfg) ids []
      simp only [List.map_nil, List.nil_append] at this
      exact this hurls
    have hresp : async_get ((ids.map (fun i => (permissionUrl cfg i, i))).map Prod.fst) net
        = ids.map (fun i => permRespFor cfg net i) := by
      rw [List.map_map]
      show (ids.map (permissionUrl cfg)).map (fun u => asyncSemaphoreClient u (net u)) = _
      rw [List.map_map]
      rfl
    have herr' : classifyPerms (ids.map (fun i => (permissionUrl cfg i, i)))
        (ids.map (fun i => permRespFor cfg net i)) = .error e := by
      rw [← hresp, ← hdict]
      exact herr
    rcases classifyPerms_cases (ids.map (fun i => (permissionUrl cfg i, i)))
        (ids.map (fun i => permRespFor cfg net i)) with ⟨e', herr'', r, hr, h200⟩ | ⟨hco, _⟩
    · obtain ⟨i, hi, rfl⟩ := List.mem_map.1 hr
      exact ⟨i, hi, h200⟩
    · rw [hco] at herr'; cases herr'

/-- Witness for the amended C3, one concrete instance per clause and
conjunct: contents partition, non-200 recording and transport-error recording;
metadata non-200 recording, success origination and transport recording; the
200-empty-body drop; permissions partition, non-200 and transport recording;
and the three exception clauses under undecodable 200 bodies. -/
theorem batch_fetch_failure_accounting_witness :
    (get_dataverse_contents cfgW [5] netEmptyObjW
        = .ok ([], [(5, ⟨contentsUrl cfgW 5, 200⟩)]) ∧
      (((∃ v, (5, v) ∈ ([] : List (Nat × JValue))) ∧
          (∀ e, (5, e) ∉ [(5, (⟨contentsUrl cfgW 5, 200⟩ : ContentsFail))])) ∨
        ((∃ e, (5, e) ∈ [(5, (⟨contentsUrl cfgW 5, 200⟩ : ContentsFail))]) ∧
          (∀ v, (5, v) ∉ ([] : List (Nat × JValue)))))) ∧
    (get_dataverse_contents cfgW [5] net404W
        = .ok ([], [(5, ⟨contentsUrl cfgW 5, 404⟩)]) ∧
      (contentsRespFor cfgW net404W 5).status ≠ 200 ∧
      ((5, (⟨(contentsRespFor cfgW net404W 5).url, (contentsRespFor cfgW net404W 5).status⟩ : ContentsFail))
          ∈ [(5, (⟨contentsUrl cfgW 5, 404⟩ : ContentsFail))] ∧
        ∀ v, (5, v) ∉ ([] : List (Nat × JValue)))) ∧
    (get_dataverse_contents cfgW [5] netExnW
        = .ok ([], [(5, ⟨contentsUrl cfgW 5, 500⟩)]) ∧
      netExnW (contentsUrl cfgW 5) = .exn ∧
      ((5, (⟨contentsUrl cfgW 5, 500⟩ : ContentsFail))
          ∈ [(5, (⟨contentsUrl cfgW 5, 500⟩ : ContentsFail))] ∧
        ∀ v, (5, v) ∉ ([] : List (Nat × JValue)))) ∧
    (get_datasets_meta cfgW ["doi:10/B"] net404W
        = .ok ([], [(datasetContentUrl cfgW "doi:10/B", 404)]) ∧
      (∀ pid ∈ ["doi:10/B"], (metaRespFor cfgW net404W pid).status ≠ 200 →
        ((metaRespFor cfgW net404W pid).url, (metaRespFor cfgW net404W pid).status)
          ∈ [(datasetContentUrl cfgW "doi:10/B", 404)]) ∧
      (∀ q ∈ [(datasetContentUrl cfgW "doi:10/B", 404)], ∃ pid ∈ ["doi:10/B"],
        (metaRespFor cfgW net404W pid).status ≠ 200 ∧
        q = ((metaRespFor cfgW net404W pid).url, (metaRespFor cfgW net404W pid).status))) ∧
    (get_datasets_meta cfgW ["doi:10/B"] netGoodMetaW
        = .ok ([(.str "doi:10/B", metaBodyW)], []) ∧
      (∀ p ∈ [((.str "doi:10/B" : JValue), metaBodyW)], ∃ pid ∈ ["doi:10/B"],
        (metaRespFor cfgW netGoodMetaW pid).status = 200 ∧
        (metaRespFor cfgW netGoodMetaW pid).body = some p.2 ∧ p.2.truthy = true ∧
        pidOf p.2 = some p.1)) ∧
    (get_datasets_meta cfgW ["doi:10/B"] netExnW
        = .ok ([], [(datasetContentUrl cfgW "doi:10/B", 500)]) ∧
      netExnW (datasetContentUrl cfgW "doi:10/B") = .exn ∧
      (datasetContentUrl cfgW "doi:10/B", 500)
        ∈ [(datasetContentUrl cfgW "doi:10/B", 500)]) ∧
    ((⟨200, "u", some (.obj [])⟩ : HResponse).status = 200 ∧
      classifyMeta [⟨200, "u", some (.obj [])⟩] = classifyMeta []) ∧
    (get_datasets_permissions cfgW [5] netEmptyObjW
        = .ok ([], [(permissionUrl cfgW 5, 200)]) ∧
      (((∃ b, (some 5, b) ∈ ([] : List (Option Nat × JValue))) ∧
          (∀ c, (permissionUrl cfgW 5, c) ∉ [(permissionUrl cfgW 5, 200)])) ∨
        ((∃ c, (permissionUrl cfgW 5, c) ∈ [(permissionUrl cfgW 5, 200)]) ∧
          (∀ b, (some 5, b) ∉ ([] : List (Option Nat × JValue)))))) ∧
    (get_datasets_permissions cfgW [5] net404W
        = .ok ([], [(permissionUrl cfgW 5, 404)]) ∧
      (permRespFor cfgW net404W 5).status ≠ 200 ∧
      ((permissionUrl cfgW 5, (permRespFor cfgW net404W 5).status)
          ∈ [(permissionUrl cfgW 5, 404)] ∧
        ∀ b, (some 5, b) ∉ ([] : List (Option Nat × JValue)))) ∧
    (get_datasets_permissions cfgW [5] netExnW
        = .ok ([], [(permissionUrl cfgW 5, 500)]) ∧
      netExnW (permissionUrl cfgW 5) = .exn ∧
      ((permissionUrl cfgW 5, 500) ∈ [(permissionUrl cfgW 5, 500)] ∧
        ∀ b, (some 5, b) ∉ ([] : List (Option Nat × JValue)))) ∧
    (get_dataverse_contents cfgW [5] netBadBodyW = .error "JSONDecodeError" ∧
      ∃ i ∈ [5], (contentsRespFor cfgW netBadBodyW i).status = 200) ∧
    (get_datasets_meta cfgW ["doi:10/B"] netBadBodyW = .error "JSONDecodeError" ∧
      ∃ pid ∈ ["doi:10/B"], (metaRespFor cfgW netBadBodyW pid).status = 200) ∧
    (get_datasets_permissions cfgW [5] netBadBodyW = .error "JSONDecodeError" ∧
      ∃ i ∈ [5], (permRespFor cfgW netBadBodyW i).status = 200) :=
  ⟨⟨rfl, ((batch_fetch_failure_accounting cfgW netEmptyObjW).1 [5]
      [] [(5, ⟨contentsUrl cfgW 5, 200⟩)] rfl 5 (List.mem_cons_self _ _)).1⟩,
   ⟨rfl, by decide, ((batch_fetch_failure_accounting cfgW net404W).1 [5]
      [] [(5, ⟨contentsUrl cfgW 5, 404⟩)] rfl 5 (List.mem_cons_self _ _)).2.1 (by decide)⟩,
   ⟨rfl, rfl, ((batch_fetch_failure_accounting cfgW netExnW).1 [5]
      [] [(5, ⟨contentsUrl cfgW 5, 500⟩)] rfl 5 (List.mem_cons_self _ _)).2.2 rfl⟩,
   ⟨rfl, ((batch_fetch_failure_accounting cfgW net404W).2.1 ["doi:10/B"]
      [] [(datasetContentUrl cfgW "doi:10/B", 404)] rfl).1,
    ((batch_fetch_failure_accounting cfgW net404W).2.1 ["doi:10/B"]
      [] [(datasetContentUrl cfgW "doi:10/B", 404)] rfl).2.1⟩,
   ⟨rfl, ((batch_fetch_failure_accounting cfgW netGoodMetaW).2.1 ["doi:10/B"]
      [(.str "doi:10/B", metaBodyW)] [] rfl).2.2.1⟩,
   ⟨rfl, rfl, ((batch_fetch_failure_accounting cfgW netExnW).2.1 ["doi:10/B"]
      [] [(datasetContentUrl cfgW "doi:10/B", 500)] rfl).2.2.2 "doi:10/B"
      (List.mem_cons_self _ _) rfl⟩,
   ⟨rfl, (batch_fetch_failure_accounting cfgW netEmptyObjW).2.2.1
      ⟨200, "u", some (.obj [])⟩ [] (.obj []) rfl rfl rfl⟩,
   ⟨rfl, ((batch_fetch_failure_accounting cfgW netEmptyObjW).2.2.2.1 [5]
      [] [(permissionUrl cfgW 5, 200)] (by decide) (by decide)
      (by intro u r' h; cases h; rfl) rfl 5 (List.mem_cons_self _ _)).1⟩,
   ⟨rfl, by decide, ((batch_fetch_failure_accounting cfgW net404W).2.2.2.1 [5]
      [] [(permissionUrl cfgW 5, 404)] (by decide) (by decide)
      (by intro u r' h; cases h; rfl) rfl 5 (List.mem_cons_self _ _)).2.1 (by decide)⟩,
   ⟨rfl, rfl, ((batch_fetch_failure_accounting cfgW netExnW).2.2.2.1 [5]
      [] [(permissionUrl cfgW 5, 500)] (by decide) (by decide)
      (fun u r' h => nomatch h) rfl 5 (List.mem_cons_self _ _)).2.2 rfl⟩,
   ⟨rfl, (batch_fetch_failure_accounting cfgW netBadBodyW).2.2.2.2.1 [5]
      "JSONDecodeError" rfl⟩,
   ⟨rfl, (batch_fetch_failure_accounting cfgW netBadBodyW).2.2.2.2.2.1 ["doi:10/B"]
      "JSONDecodeError" rfl⟩,
   ⟨rfl, (batch_fetch_failure_accounting cfgW netBadBodyW).2.2.2.2.2.2 [5]
      "JSONDecodeError" (by decide) rfl⟩⟩

/-! ## Claim C10: `get_collections_tree` collapses every failure to `None` -/

/-- C10.  `get_collections_tree` never raises (it is total) and returns `None`
for every failure mode: a transport-level error is converted by `sync_get`
into a synthetic status-500 response object — not an exception — which, like
every other non-200 response, is then mapped to `None`; only a status-200
response is returned.  The caller thus receives a single `None` signal and
cannot distinguish HTTP failure from transport failure. -/
theorem get_collections_tree_failure_none (cfg : Config) (pa : Option String)
    (net : String → NetOutcome) :
    (net (treeUrl cfg pa) = .exn →
      sync_get (treeUrl cfg pa) (net (treeUrl cfg pa)) = some ⟨500, treeUrl cfg pa, none⟩ ∧
      get_collections_tree cfg pa net = none) ∧
    (∀ r, net (treeUrl cfg pa) = .resp r → r.status ≠ 200 →
      get_collections_tree cfg pa net = none) ∧
    (∀ r, net (treeUrl cfg pa) = .resp r → r.status = 200 →
      get_collections_tree cfg pa net = some r) := by
  refine ⟨?_, ?_, ?_⟩
  · intro h
    constructor
    · rw [h]; rfl
    · unfold get_collections_tree
      rw [h]
      simp [sync_get]
  · intro r h hs
    unfold get_collections_tree
    rw [h]
    simp [sync_get, hs]
  · intro r h hs
    unfold get_collections_tree
    rw [h]
    simp [sync_get, hs]

/-- Witness for C10: under a network that raises a transport error on every
request, `sync_get` yields the synthetic 500 response and the tree fetch
returns `None`. -/
theorem get_collections_tree_failure_none_witness :
    netExnW (treeUrl cfgW none) = .exn ∧
    (sync_get (treeUrl cfgW none) (netExnW (treeUrl cfgW none))
        = some ⟨500, treeUrl cfgW none, none⟩ ∧
      get_collections_tree cfgW none netExnW = none) :=
  ⟨rfl, (get_collections_tree_failure_none cfgW none netExnW).1 rfl⟩

/-! ## Claim C6: the connectivity check (code bug) -/

/-- C6 (code-bug evidence).  The connectivity check that `main` actually calls
— `func.check_connection` — performs a single probe and returns one boolean:
under `netC6`, where the authenticated role-scoped `mydata` endpoint fails
(401) but the public `version` endpoint succeeds (200), it returns `false`
with no fallback.  The two-step check the specification describes exists as
`cli_validation.validate_connection` — which succeeds on the same network —
but has no caller; and `main.py` line 95 unpacks *two* values
(`connection_status, auth_status`) from `check_connection`'s single boolean,
a `TypeError` on every run. -/
theorem check_connection_single_probe :
    netC6 ("https://dv.example" ++ "/api/mydata/retrieve?role_ids=8&dvobject_types=Dataverse&published_states=Published&per_page=1") true
      = .resp ⟨401, "https://dv.example" ++ "/api/mydata/retrieve?role_ids=8&dvobject_types=Dataverse&published_states=Published&per_page=1",
          some (.obj [("status", .str "ERROR")])⟩ ∧
    netC6 ("https://dv.example" ++ "/api/info/version") false
      = .resp ⟨200, "https://dv.example" ++ "/api/info/version", some (.obj [("status", .str "OK")])⟩ ∧
    check_connection cfgW netC6 = false ∧
    validate_connection cfgW netC6 = .ok true := by
  refine ⟨?_, ?_, ?_, ?_⟩ <;> rfl

end DvMeta
